import Mathlib

/-!
Verification of the schema-derivation engine of the form-builder
(`src/app/page.tsx`).  The definitions below are a shallow embedding of the
TypeScript source: pure functions are translated directly, the React state
mutations become explicit state passing, and JavaScript 32-bit integer
arithmetic is modelled over `Int` with explicit wrap-around.

Modelling conventions, fixed once here:
* JS strings are `String`; `charCodeAt` is `Char.toNat` (identical for the
  BMP code points that occur in labels).
* Optional JS fields that are only ever tested for truthiness or compared
  are modelled as `Option _`; the optional `required` flag of an element is
  modelled as `Bool` because the code only reads its truthiness, and
  `undefined` and `false` are both falsy.
* `FormField.parent` is in the source a back-reference to the enclosing
  form object.  The schema builders and mutators only test it for
  truthiness (`!form.parent`, `form.parent && !parentPath`), so it is
  modelled as a `Bool` (`true` = the node has a parent).
* JS objects used as string-keyed records are association lists
  `List (String × _)` in insertion order; assignment `o[k] = v` replaces
  the value in place when the key exists and appends otherwise
  (`insertProp` below), matching JS property-order semantics.
-/

namespace FormBuilder

/-! ### Enumerations of the source (`FormType`, `ElementType`, layout) -/

/-- `type FormType = 'simple' | 'array' | 'group'` -/
inductive FormType where
  | simple
  | array
  | group
deriving DecidableEq, Repr

/-- `type ElementType = 'string' | 'number' | 'boolean' | 'date' | 'object' | 'array'` -/
inductive ElementType where
  | string
  | number
  | boolean
  | date
  | object
  | array
deriving DecidableEq, Repr

/-- The `layout` field of a form: `'vertical' | 'horizontal'`. -/
inductive Layout where
  | vertical
  | horizontal
deriving DecidableEq, Repr

/-! ### Identity generator (`generateHexFromString`, key derivation)

The source derives keys in two places with the identical expression
`label.toLowerCase().replace(/\s+/g, '-') + '-' + generateHexFromString(label)`
(lines 163 and 315). -/

/-- JS `ToInt32`: wrap an integer into the signed 32-bit range. -/
def jsToInt32 (n : Int) : Int :=
  ((n + 2 ^ 31) % 2 ^ 32) - 2 ^ 31

/-- One step of the loop body of `generateHexFromString`:
`hash = ((hash << 5) - hash) + str.charCodeAt(i); hash = hash & hash;`.
`hash << 5` wraps to 32 bits, the subtraction and addition are exact
(double precision suffices), and `hash & hash` coerces back to 32 bits. -/
def hashStep (h : Int) (c : Int) : Int :=
  jsToInt32 (jsToInt32 (h * 32) - h + c)

/-- The rolling hash of `generateHexFromString` over the code units of `s`. -/
def jsHash (s : String) : Int :=
  s.toList.foldl (fun h c => hashStep h (c.toNat : Int)) 0

/-- `generateHexFromString`: `Math.abs(hash).toString(16).substring(0, 6)`. -/
def generateHexFromString (s : String) : String :=
  String.mk ((Nat.toDigits 16 (jsHash s).natAbs).take 6)

/-- Whitespace as matched by the regex `\s` (the ASCII part, which is all
that can occur in the generated and edited labels). -/
def jsWs (c : Char) : Bool :=
  c = ' ' || c = '\t' || c = '\n' || c = '\r' || c = '\x0b' || c = '\x0c'

/-- `replace(/\s+/g, '-')` over a character list: every maximal run of
whitespace becomes a single hyphen.  The boolean flag records whether the
previous character was part of a whitespace run. -/
def collapseWs : Bool → List Char → List Char
  | _, [] => []
  | prevWs, c :: cs =>
    if jsWs c then
      if prevWs then collapseWs true cs else '-' :: collapseWs true cs
    else
      c :: collapseWs false cs

/-- `label.toLowerCase().replace(/\s+/g, '-')`. -/
def jsSlug (s : String) : String :=
  String.mk (collapseWs false (s.toList.map Char.toLower))

/-- The key derivation used at creation (line 163) and rename (line 315):
`label.toLowerCase().replace(/\s+/g,'-') + '-' + generateHexFromString(label)`. -/
def deriveKey (label : String) : String :=
  jsSlug label ++ "-" ++ generateHexFromString label

/-- The type suffix appended by `generateElementName`: `'Form'` for the
three form types, otherwise the capitalized element type. -/
def elementTypeLabel : ElementType → String
  | .string => "String"
  | .number => "Number"
  | .boolean => "Boolean"
  | .date => "Date"
  | .object => "Object"
  | .array => "Array"

/-- `generateElementName` for a form type: the random two-word base name is
an explicit input (`uniqueNamesGenerator` is external); the label is
`baseName + ' ' + 'Form'` and the key is derived from the label. -/
def generateFormName (baseName : String) : String × String :=
  let label := baseName ++ " " ++ "Form"
  (label, deriveKey label)

/-- `generateElementName` for an element type. -/
def generateElementName (baseName : String) (t : ElementType) : String × String :=
  let label := baseName ++ " " ++ elementTypeLabel t
  (label, deriveKey label)

/-- JS `String.prototype.split` with a one-character separator: split at
every occurrence, keeping empty pieces at the boundaries. -/
def jsSplitAux (c : Char) : List Char → List Char → List String
  | [], acc => [String.mk acc.reverse]
  | x :: xs, acc =>
    if x = c then String.mk acc.reverse :: jsSplitAux c xs []
    else jsSplitAux c xs (x :: acc)

/-- `s.split(c)` for a single-character separator (the source splits on
`'/'` and `'.'` only). -/
def jsSplit (s : String) (c : Char) : List String :=
  jsSplitAux c s.toList []

/-- `s.startsWith(pre)`. -/
def jsStartsWith (s pre : String) : Bool :=
  pre.toList.isPrefixOf s.toList

/-! ### The form tree (`FormField`, `FormElement`) -/

mutual
/-- `interface FormField` of the source.  `ltype` is the stored
`FormLayoutType` string (always `'VerticalLayout'` in the source and never
read by the builders); `parent` is the truthiness of the back-reference. -/
inductive FormField : Type where
  | mk (ltype : String) (formType : FormType) (label : String) (key : String)
       (elements : List FormElement) (parent : Bool) (layout : Option Layout) : FormField

/-- `interface FormElement`.  `eform` models `properties?.form`; the code
only ever reads `element.properties?.form`, so the remaining contents of
`properties` (the `type: 'object'` tag set by `addElement`) are not
modelled. -/
inductive FormElement : Type where
  | mk (etype : ElementType) (label : String) (key : String) (required : Bool)
       (eform : Option FormField) : FormElement
end

def FormField.ltype : FormField → String
  | .mk t _ _ _ _ _ _ => t

def FormField.formType : FormField → FormType
  | .mk _ ft _ _ _ _ _ => ft

def FormField.label : FormField → String
  | .mk _ _ l _ _ _ _ => l

def FormField.key : FormField → String
  | .mk _ _ _ k _ _ _ => k

def FormField.elements : FormField → List FormElement
  | .mk _ _ _ _ es _ _ => es

def FormField.parent : FormField → Bool
  | .mk _ _ _ _ _ p _ => p

def FormField.layout : FormField → Option Layout
  | .mk _ _ _ _ _ _ l => l

def FormElement.etype : FormElement → ElementType
  | .mk t _ _ _ _ => t

def FormElement.label : FormElement → String
  | .mk _ l _ _ _ => l

def FormElement.key : FormElement → String
  | .mk _ _ k _ _ => k

def FormElement.required : FormElement → Bool
  | .mk _ _ _ r _ => r

def FormElement.eform : FormElement → Option FormField
  | .mk _ _ _ _ f => f

/-- Replace the element list of a form (`form.elements = …`). -/
def FormField.setElements : FormField → List FormElement → FormField
  | .mk t ft l k _ p lay, es => .mk t ft l k es p lay

example : deriveKey "Name" = "name-" ++ generateHexFromString "Name" := rfl

/-! ### Key/label invariants

`goodForm` states that every key in a subtree is the derivation of its
label (spec §8, first testable property); `syncedForm` states that every
object element carries the same label and key as its embedded form
(spec §4.2, the cross-reference join invariant). -/

mutual
def goodForm : FormField → Bool
  | .mk _ _ label key els _ _ => (key == deriveKey label) && goodElems els

def goodElems : List FormElement → Bool
  | [] => true
  | e :: es => goodElem e && goodElems es

def goodElem : FormElement → Bool
  | .mk _ label key _ none => key == deriveKey label
  | .mk _ label key _ (some f) => (key == deriveKey label) && goodForm f
end

mutual
def syncedForm : FormField → Bool
  | .mk _ _ _ _ els _ _ => syncedElems els

def syncedElems : List FormElement → Bool
  | [] => true
  | e :: es => syncedElem e && syncedElems es

def syncedElem : FormElement → Bool
  | .mk et label key _ (some f) =>
    if et = .object then (label == f.label) && (key == f.key) && syncedForm f else true
  | .mk _ _ _ _ none => true
end

/-! ### Locating a node of the tree

The source mutates form objects in place through aliases held by the
navigation state (`currentPath`, the card being displayed).  In the pure
model every such in-place mutation becomes a functional rewrite of the
tree at the address of the aliased node: the address (a root index
followed by element indices whose embedded form is entered) designates the
object that the alias points at.  The theorems quantify over all
addresses, hence cover every node the running code can alias. -/

/-- A tree address: root index, then element indices to descend through. -/
abbrev Addr := List Nat

/-- Apply `f` to the `i`-th entry of a list, identity when out of range. -/
def modifyIdx (f : α → α) : Nat → List α → List α
  | _, [] => []
  | 0, x :: xs => f x :: xs
  | n + 1, x :: xs => x :: modifyIdx f n xs

/-- Apply `f` to the form reached from `g` by descending through the
elements at the given indices (entering their embedded forms). -/
def modifyFormAt (f : FormField → FormField) : Addr → FormField → FormField
  | [], g => f g
  | i :: rest, g =>
    g.setElements (modifyIdx (fun e =>
      match e with
      | .mk et lab k req (some h) =>
        if et = .object then .mk et lab k req (some (modifyFormAt f rest h)) else e
      | _ => e) i g.elements)

/-- Apply `f` to the form at an address in the root collection. -/
def modifyForms (f : FormField → FormField) : Addr → List FormField → List FormField
  | [], fs => fs
  | i :: rest, fs => modifyIdx (modifyFormAt f rest) i fs

/-- Read the form at an address below `g` (mirror of `modifyFormAt`). -/
def findFormAt : Addr → FormField → Option FormField
  | [], g => some g
  | i :: rest, g =>
    match g.elements.get? i with
    | some (.mk et _ _ _ (some h)) => if et = .object then findFormAt rest h else none
    | _ => none

/-- Read the form at an address in the root collection. -/
def findForms : Addr → List FormField → Option FormField
  | [], _ => none
  | i :: rest, fs =>
    match fs.get? i with
    | some g => findFormAt rest g
    | none => none

/-! ### The mutating operations (`addForm`, `addElement`, `updateForm`,
`updateElement`, `deleteForm`, `deleteElement`) -/

/-- The new root form built by `addForm` with empty `currentPath`:
`{type: 'VerticalLayout', formType, label, key, elements: [], parent: undefined, layout: 'vertical'}`. -/
def newRootForm (baseName : String) (t : FormType) : FormField :=
  let lk := generateFormName baseName
  .mk "VerticalLayout" t lk.1 lk.2 [] false (some .vertical)

/-- The new nested form built by `addForm` with non-empty `currentPath`
(`parent` is set to the tail of the path, hence truthy). -/
def newNestedForm (baseName : String) (t : FormType) : FormField :=
  let lk := generateFormName baseName
  .mk "VerticalLayout" t lk.1 lk.2 [] true (some .vertical)

/-- The object element wrapping a nested form created by `addForm`:
`{type: 'object', label, key, properties: {form: newForm}}` — same label
and key as the form it embeds. -/
def newNestedFormElem (baseName : String) (t : FormType) : FormElement :=
  let lk := generateFormName baseName
  .mk .object lk.1 lk.2 false (some (newNestedForm baseName t))

/-- The nested form built by the `object` branch of `addElement`:
`{type: 'VerticalLayout', formType: 'group', label, key, elements: [], parent: form}`
— note: no `layout` field. -/
def newElemForm (baseName : String) : FormField :=
  let lk := generateElementName baseName .object
  .mk "VerticalLayout" .group lk.1 lk.2 [] true none

/-- The object element built by the `object` branch of `addElement`. -/
def newObjElem (baseName : String) : FormElement :=
  let lk := generateElementName baseName .object
  .mk .object lk.1 lk.2 false (some (newElemForm baseName))

/-- The plain element built by the non-`object` branch of `addElement`:
`{type, label, key, required: false}`. -/
def newPlainElem (baseName : String) (t : ElementType) : FormElement :=
  let lk := generateElementName baseName t
  .mk t lk.1 lk.2 false none

/-- `addElement(form)`: branch on the selected element type, append the new
element to `form.elements`. -/
def addElementTo (baseName : String) (t : ElementType) (g : FormField) : FormField :=
  if t = .object then
    g.setElements (g.elements ++ [newObjElem baseName])
  else
    g.setElements (g.elements ++ [newPlainElem baseName t])

/-- `updateForm`, step 1: `formWithNewKey = {...updatedForm, key: newKey}`
with `newKey` re-derived from the (possibly edited) label. -/
def formWithNewKey (u : FormField) : FormField :=
  match u with
  | .mk t ft lab _ els p lay => .mk t ft lab (deriveKey lab) els p lay

mutual
/-- `updateNestedForms` of `updateForm`: replace the node whose key matches
`updatedForm.key` by `formWithNewKey`; in every other node rewrite each
object element to carry its (recursively updated) embedded form's label and
key.  In the source the rewrite of an element is guarded by
`updatedNestedForm !== nestedForm`, which is always true because the
recursive call always allocates a fresh object; the guard is therefore
modelled as always taken. -/
def updateNestedForms (u : FormField) : FormField → FormField
  | .mk t ft lab k els p lay =>
    if k = u.key then formWithNewKey u
    else .mk t ft lab k (updateNestedElems u els) p lay

def updateNestedElems (u : FormField) : List FormElement → List FormElement
  | [] => []
  | e :: es => updateNestedElem u e :: updateNestedElems u es

def updateNestedElem (u : FormField) : FormElement → FormElement
  | .mk et lab k req (some h) =>
    if et = .object then
      let h' := updateNestedForms u h
      .mk et h'.label h'.key req (some h')
    else .mk et lab k req (some h)
  | .mk et lab k req none => .mk et lab k req none
end

/-- The tree part of `updateForm`: `forms.map(form => updateNestedForms(form))`. -/
def updateFormTree (u : FormField) (forms : List FormField) : List FormField :=
  forms.map (updateNestedForms u)

/-- The path entry rewrite of `updateForm` (lines 357–362). -/
def updateFormPathEntry (u : FormField) (p : FormField) : FormField :=
  if p.key = u.key then formWithNewKey u else updateNestedForms u p

/-- The full `updateForm`: new tree and new `currentPath`. -/
def updateFormFull (u : FormField) (forms : List FormField) (path : List FormField) :
    List FormField × List FormField :=
  (updateFormTree u forms, path.map (updateFormPathEntry u))

/-- `updateElement(form, updatedElement)`: replace by key match within
`form.elements`; the element is installed verbatim. -/
def updateElementIn (upd : FormElement) (g : FormField) : FormField :=
  g.setElements (g.elements.map (fun e => if e.key = upd.key then upd else e))

/-- `deleteForm(key)` with empty `currentPath`: filter the root collection. -/
def deleteRootForm (key : String) (forms : List FormField) : List FormField :=
  forms.filter (fun f => f.key ≠ key)

/-- `deleteForm(key)` with non-empty `currentPath`: drop from the current
form the object elements whose embedded form has the key. -/
def deleteNestedFormIn (key : String) (g : FormField) : FormField :=
  g.setElements (g.elements.filter (fun e =>
    !(e.etype = .object && (match e.eform with | some h => h.key == key | none => false))))

/-- `deleteElement(form, elementKey)`. -/
def deleteElementIn (key : String) (g : FormField) : FormField :=
  g.setElements (g.elements.filter (fun e => e.key ≠ key))

/-- One mutating operation of the builder, with the address of the aliased
target node where the source mutates through an alias.  The random
two-word base names produced by the external `uniqueNamesGenerator` are
carried by the operation. -/
inductive Op where
  | addRootForm (baseName : String) (t : FormType)
  | addNestedForm (baseName : String) (t : FormType) (addr : Addr)
  | addElement (baseName : String) (t : ElementType) (addr : Addr)
  | updateForm (u : FormField)
  | updateElement (upd : FormElement) (addr : Addr)
  | deleteRoot (key : String)
  | deleteNested (key : String) (addr : Addr)
  | deleteElement (key : String) (addr : Addr)

/-- Apply one operation to the root collection. -/
def applyOp : Op → List FormField → List FormField
  | .addRootForm base t, forms => forms ++ [newRootForm base t]
  | .addNestedForm base t addr, forms =>
    modifyForms (fun g => g.setElements (g.elements ++ [newNestedFormElem base t])) addr forms
  | .addElement base t addr, forms => modifyForms (addElementTo base t) addr forms
  | .updateForm u, forms => updateFormTree u forms
  | .updateElement upd addr, forms => modifyForms (updateElementIn upd) addr forms
  | .deleteRoot key, forms => deleteRootForm key forms
  | .deleteNested key addr, forms => modifyForms (deleteNestedFormIn key) addr forms
  | .deleteElement key addr, forms => modifyForms (deleteElementIn key) addr forms

/-- Apply a sequence of operations, oldest first. -/
def applyOps (ops : List Op) (forms : List FormField) : List FormField :=
  ops.foldl (fun fs op => applyOp op fs) forms

/-- All keys of the forest satisfy the derivation invariant. -/
def goodForms (forms : List FormField) : Bool :=
  forms.all goodForm

/-! ### Structural schema objects (`interface SchemaObject`) -/

/-- `interface SchemaObject`: `type`, optional `title`, optional
`properties` record (insertion-ordered), optional `items`, optional
`required` list, optional `format`. -/
inductive SchemaObject : Type where
  | mk (type : String) (title : Option String)
       (properties : Option (List (String × SchemaObject)))
       (items : Option SchemaObject) (required : Option (List String))
       (format : Option String) : SchemaObject

def SchemaObject.type : SchemaObject → String
  | .mk t _ _ _ _ _ => t

def SchemaObject.title : SchemaObject → Option String
  | .mk _ ti _ _ _ _ => ti

def SchemaObject.properties : SchemaObject → Option (List (String × SchemaObject))
  | .mk _ _ ps _ _ _ => ps

def SchemaObject.items : SchemaObject → Option SchemaObject
  | .mk _ _ _ it _ _ => it

def SchemaObject.requiredKeys : SchemaObject → Option (List String)
  | .mk _ _ _ _ rq _ => rq

def SchemaObject.format : SchemaObject → Option String
  | .mk _ _ _ _ _ fm => fm

/-- JS record assignment `o[k] = v`: replace in place when the key exists
(first occurrence; a record never holds a key twice), append otherwise. -/
def insertProp (props : List (String × SchemaObject)) (k : String) (v : SchemaObject) :
    List (String × SchemaObject) :=
  match props with
  | [] => [(k, v)]
  | (k', v') :: rest => if k' = k then (k, v) :: rest else (k', v') :: insertProp rest k v

/-- JS record lookup `o[k]` (first occurrence). -/
def lookupProp (props : List (String × SchemaObject)) (k : String) : Option SchemaObject :=
  match props with
  | [] => none
  | (k', v') :: rest => if k' = k then some v' else lookupProp rest k

/-- Replace the value stored under an existing key (used to model mutation
through a reference obtained by lookup). -/
def replaceProp (props : List (String × SchemaObject)) (k : String) (v : SchemaObject) :
    List (String × SchemaObject) :=
  match props with
  | [] => []
  | (k', v') :: rest => if k' = k then (k, v) :: rest else (k', v') :: replaceProp rest k v

/-! ### `generateFormSchema` -/

/-- The keys of the required elements: `form.elements.filter(el => el.required).map(el => el.key)`. -/
def requiredOf (els : List FormElement) : List String :=
  (els.filter (fun e => e.required)).map (fun e => e.key)

/-- The `type` strings of the structural schema for plain elements. -/
def elementTypeString : ElementType → String
  | .string => "string"
  | .number => "number"
  | .boolean => "boolean"
  | .date => "date"
  | .object => "object"
  | .array => "array"

mutual
/-- `generateFormSchema(form)`. -/
def generateFormSchema : FormField → SchemaObject
  | .mk _ ft lab _ els _ _ =>
    if ft = .simple ∨ ft = .group then
      let props := processElements els []
      let req := requiredOf els
      .mk "object" (some lab) (some props) none
        (if req.length > 0 then some req else none) none
    else if ft = .array then
      let props := processElements els []
      let req := requiredOf els
      .mk "array" (some lab) none
        (some (.mk "object" none (some props) none
          (if req.length > 0 then some req else none) none))
        none none
    else
      .mk "object" none (some []) none none none

/-- `processElements`: the `reduce` building the properties record, with
the accumulator made explicit. -/
def processElements : List FormElement → List (String × SchemaObject) →
    List (String × SchemaObject)
  | [], acc => acc
  | e :: es, acc => processElements es (insertProp acc e.key (elementSchema e))

/-- One `reduce` step: the schema fragment of a single element.  The first
source branch fires on `element.type === 'object' && element.properties?.form`;
an `object` element without an embedded form falls through to the last
branch, producing `{type: 'object', title}`. -/
def elementSchema : FormElement → SchemaObject
  | .mk .object _ _ _ (some f) => generateFormSchema f
  | .mk et lab _ _ _ =>
    if et = .array then
      .mk "array" (some lab) none (some (.mk "string" none none none none none)) none none
    else if et = .date then
      .mk "string" (some lab) none none none (some "date")
    else
      .mk (elementTypeString et) (some lab) none none none none

end

/-! ### `generateJsonSchema` -/

/-- The mutable state of one `generateJsonSchema` run: the top-level
`schema.properties`, the top-level `schema.required`, and the
`processedForms` set.  The set is kept as the list of keys in the order
they were added, so that "each form is processed at most once" is the
statement that this list has no duplicates. -/
structure BuildState where
  props : List (String × SchemaObject)
  required : List String
  processed : List String

/-- The last step of the path walk in `processForm`: at the final path
part, insert `formSchema` under `form.key` either into
`currentObj[part].items.properties` (array fragment) or into
`currentObj[part].properties`; when neither guard matches nothing happens. -/
def insertIntoFragment (so : SchemaObject) (k : String) (v : SchemaObject) : SchemaObject :=
  match so with
  | .mk t ti pr (some (.mk t2 ti2 (some ps2) it2 rq2 fm2)) rq fm =>
    if t = "array" then
      .mk t ti pr (some (.mk t2 ti2 (some (insertProp ps2 k v)) it2 rq2 fm2)) rq fm
    else
      match pr with
      | some ps => .mk t ti (some (insertProp ps k v)) (some (.mk t2 ti2 (some ps2) it2 rq2 fm2)) rq fm
      | none => so
  | .mk t ti (some ps) it rq fm => .mk t ti (some (insertProp ps k v)) it rq fm
  | _ => so

/-- Whether the walk descends through `items.properties` of an array
fragment (`currentObj[part]?.type === 'array' && currentObj[part].items?.properties`). -/
def isArrayFragment (so : SchemaObject) : Bool :=
  so.type == "array" &&
    (match so.items with
     | some it => it.properties.isSome
     | none => false)

/-- Rewrite the `items.properties` of an array fragment. -/
def setItemsProps (so : SchemaObject) (ps : List (String × SchemaObject)) : SchemaObject :=
  match so with
  | .mk t ti pr (some (.mk t2 ti2 _ it2 rq2 fm2)) rq fm =>
    .mk t ti pr (some (.mk t2 ti2 (some ps) it2 rq2 fm2)) rq fm
  | so => so

/-- Read the `items.properties` of an array fragment (empty as fallback). -/
def getItemsProps (so : SchemaObject) : List (String × SchemaObject) :=
  match so with
  | .mk _ _ _ (some (.mk _ _ (some ps) _ _ _)) _ _ => ps
  | _ => []

/-- Rewrite the `properties` of a fragment. -/
def setProps (so : SchemaObject) (ps : List (String × SchemaObject)) : SchemaObject :=
  match so with
  | .mk t ti _ it rq fm => .mk t ti (some ps) it rq fm

/-- The path walk of `processForm` (lines 491–513): navigate the dotted
parent path inside the top-level properties and insert the fragment at the
last part.  When a part does not admit descent the loop keeps the current
object, which amounts to skipping that part. -/
def navInsert (props : List (String × SchemaObject)) :
    List String → String → SchemaObject → List (String × SchemaObject)
  | [], _, _ => props
  | [part], k, v =>
    match lookupProp props part with
    | some so => replaceProp props part (insertIntoFragment so k v)
    | none => props
  | part :: part2 :: rest, k, v =>
    match lookupProp props part with
    | some so =>
      if isArrayFragment so then
        replaceProp props part
          (setItemsProps so (navInsert (getItemsProps so) (part2 :: rest) k v))
      else
        match so.properties with
        | some ps => replaceProp props part (setProps so (navInsert ps (part2 :: rest) k v))
        | none => navInsert props (part2 :: rest) k v
    | none => navInsert props (part2 :: rest) k v

mutual
/-- `processForm(form, parentPath?)` threading the build state. -/
def processForm (f : FormField) (parentPath : Option String) (st : BuildState) : BuildState :=
  match f with
  | .mk t ft lab k els p lay =>
    if st.processed.contains k then st
    else if p = true ∧ parentPath = none then st
    else
      let fs := generateFormSchema (.mk t ft lab k els p lay)
      let st1 :=
        match parentPath with
        | some pp => { st with props := navInsert st.props (jsSplit pp '.') k fs }
        | none =>
          { st with
            props := insertProp st.props k fs,
            required := if els.any (fun e => e.required) then st.required ++ [k] else st.required }
      let st2 := { st1 with processed := st1.processed ++ [k] }
      let childPath := match parentPath with
        | some pp => pp ++ "." ++ k
        | none => k
      processChildren els childPath st2

/-- The `form.elements.forEach` loop recursing into embedded forms. -/
def processChildren : List FormElement → String → BuildState → BuildState
  | [], _, st => st
  | e :: es, pp, st => processChildren es pp (childStep e pp st)

/-- One iteration of the loop: recurse when
`element.type === 'object' && element.properties?.form`. -/
def childStep : FormElement → String → BuildState → BuildState
  | .mk et _ _ _ (some hh), pp, st => if et = .object then processForm hh (some pp) st else st
  | .mk _ _ _ _ none, _, st => st
end

/-- `generateJsonSchema()`: seed with the parentless root forms. -/
def generateJsonSchema (forms : List FormField) : BuildState :=
  (forms.filter (fun f => f.parent = false)).foldl
    (fun st f => processForm f none st) ⟨[], [], []⟩

/-! ### Reachability (for the exactly-once property of `generateJsonSchema`) -/

mutual
/-- All forms of a subtree in the preorder in which `processForm` discovers
them: the form itself, then the embedded forms of its object elements. -/
def subforms : FormField → List FormField
  | .mk t ft lab k els p lay => .mk t ft lab k els p lay :: subformsOfElems els

def subformsOfElems : List FormElement → List FormField
  | [] => []
  | e :: es => subformsOfElem e ++ subformsOfElems es

def subformsOfElem : FormElement → List FormField
  | .mk et _ _ _ (some hh) => if et = .object then subforms hh else []
  | .mk _ _ _ _ none => []
end

/-- The keys of all forms of a subtree, in discovery order. -/
def subKeys (f : FormField) : List String :=
  (subforms f).map FormField.key

def subKeysE (es : List FormElement) : List String :=
  (subformsOfElems es).map FormField.key

def subKeysElem (e : FormElement) : List String :=
  (subformsOfElem e).map FormField.key

/-- The keys of all forms reachable from the parentless roots, in the order
`generateJsonSchema` discovers them. -/
def rootSubKeys (forms : List FormField) : List String :=
  (forms.filter (fun f => f.parent = false)).flatMap subKeys

/-! ### Presentation (UI) schema builder (`generateUiSchema`) -/

/-- A node of the presentation schema.  `nullE` models the JS `null`
returned by `processArrays`/`processObject` when their shape guard fails;
`detail` models `options: {detail: {type, elements}}`. -/
inductive UiElem : Type where
  | nullE : UiElem
  | node (type : String) (scope : Option String) (label : Option String)
         (detail : Option (String × List UiElem)) (elements : Option (List UiElem)) : UiElem

def UiElem.isNull : UiElem → Bool
  | .nullE => true
  | _ => false

def UiElem.typeStr : UiElem → String
  | .nullE => ""
  | .node t _ _ _ _ => t

def UiElem.detailOf : UiElem → Option (String × List UiElem)
  | .nullE => none
  | .node _ _ _ d _ => d

def UiElem.elementsOf : UiElem → List UiElem
  | .node _ _ _ _ (some es) => es
  | _ => []

def UiElem.labelOf : UiElem → Option String
  | .nullE => none
  | .node _ _ l _ _ => l

/-- `cleanScopePath`: compact a deep `#/properties/...` path to its leaf. -/
def cleanScopePath (scope : String) : String :=
  if jsStartsWith scope "#/properties/" then
    let parts := jsSplit scope '/'
    if parts.length > 3 then "#/properties/" ++ parts.getLastD "" else scope
  else scope

/-- A plain control node: `{type: 'Control', scope: cleanScopePath(p)}`. -/
def controlOf (scope : String) : UiElem :=
  .node "Control" (some (cleanScopePath scope)) none none none

/-- `getGroupFormElements(properties, groupPath)`. -/
def getGroupFormElements (ps : List (String × SchemaObject)) (groupPath : String) : List UiElem :=
  ps.map (fun kv => UiElem.node "Control" (some (groupPath ++ "/properties/" ++ kv.1)) none none none)

/-- `getSimpleFormElements(properties)`. -/
def getSimpleFormElements (ps : List (String × SchemaObject)) : List UiElem :=
  ps.map (fun kv =>
    UiElem.node "Control" (some (cleanScopePath ("#/properties/" ++ kv.1))) none none none)

/-- The detail control emitted for a `simple`-kind nested form. -/
def simpleDetailControl (scope : String) (ps : List (String × SchemaObject)) : UiElem :=
  .node "Control" (some (cleanScopePath scope)) none
    (some ("VerticalLayout", getSimpleFormElements ps)) none

/-- The labelled group container emitted for a `group`-kind nested form. -/
def groupNode (label : String) (scope : String) (ps : List (String × SchemaObject)) : UiElem :=
  .node "Group" (some scope) (some label) none (some (getGroupFormElements ps scope))

/-- `form?.layout === 'horizontal' ? 'HorizontalLayout' : 'VerticalLayout'`. -/
def detailLayoutType (form : Option FormField) : String :=
  match form with
  | some f => match f.layout with
    | some .horizontal => "HorizontalLayout"
    | _ => "VerticalLayout"
  | none => "VerticalLayout"

mutual
/-- `processArrays(schemaObj, path, form)`.  The lookups
`forms.find(f => f.key === key)` search the root collection `forms`, which
is the closure variable of the source function. -/
def processArrays (forms : List FormField) : SchemaObject → String → Option FormField → UiElem
  | .mk t _ _ it _ _, path, form =>
    if t = "array" then
      match it with
      | some (.mk _ _ (some ips) _ _ _) =>
        .node "Control" (some (cleanScopePath path)) none
          (some (detailLayoutType form, paProps forms form ips)) none
      | _ => .nullE
    else .nullE
termination_by so _ _ => 4 * sizeOf so
decreasing_by all_goals (simp_wf; try subst_vars; try injections; try subst_vars); all_goals simp_arith

/-- The `map` over `schemaObj.items.properties` in `processArrays`. -/
def paProps (forms : List FormField) (form : Option FormField) :
    List (String × SchemaObject) → List UiElem
  | [] => []
  | (k, v) :: rest => paEntry forms form k v :: paProps forms form rest
termination_by l => 4 * sizeOf l + 3
decreasing_by all_goals (simp_wf; try subst_vars; try injections; try subst_vars); all_goals simp_arith

/-- One entry of the `map` over `items.properties` in `processArrays`. -/
def paEntry (forms : List FormField) (form : Option FormField) (k : String) :
    SchemaObject → UiElem
  | v@(.mk t _ pr _ _ _) =>
    if t = "array" then
      processArrays forms v ("#/properties/" ++ k) form
    else if t = "object" then
      match pr with
      | some ps =>
        match forms.find? (fun f => f.key == k) with
        | some f =>
          if f.formType = .simple then simpleDetailControl ("#/properties/" ++ k) ps
          else if f.formType = .group then groupNode f.label ("#/properties/" ++ k) ps
          else
            .node "Control" (some (cleanScopePath ("#/properties/" ++ k))) none
              (some ("VerticalLayout", paNested forms (some f) ps)) none
        | none =>
          .node "Control" (some (cleanScopePath ("#/properties/" ++ k))) none
            (some ("VerticalLayout", paNested forms none ps)) none
      | none => controlOf ("#/properties/" ++ k)
    else controlOf ("#/properties/" ++ k)
termination_by v => 4 * sizeOf v + 2
decreasing_by all_goals (simp_wf; try subst_vars; try injections; try subst_vars); all_goals simp_arith

/-- The inner `map` building `nestedElements` in `processArrays`. -/
def paNested (forms : List FormField) (nestedForm : Option FormField) :
    List (String × SchemaObject) → List UiElem
  | [] => []
  | (k, v) :: rest => paNestedEntry forms nestedForm k v :: paNested forms nestedForm rest
termination_by l => 4 * sizeOf l + 3
decreasing_by all_goals (simp_wf; try subst_vars; try injections; try subst_vars); all_goals simp_arith

/-- One entry of `nestedElements` in `processArrays`. -/
def paNestedEntry (forms : List FormField) (nestedForm : Option FormField) (k : String) :
    SchemaObject → UiElem
  | v@(.mk t _ pr _ _ _) =>
    if t = "array" then
      processArrays forms v ("#/properties/" ++ k) nestedForm
    else if t = "object" then
      match pr with
      | some ps =>
        match forms.find? (fun f => f.key == k) with
        | some g =>
          if g.formType = .simple then simpleDetailControl ("#/properties/" ++ k) ps
          else if g.formType = .group then groupNode g.label ("#/properties/" ++ k) ps
          else processObject forms v ("#/properties/" ++ k) (some g)
        | none => processObject forms v ("#/properties/" ++ k) none
      | none => controlOf ("#/properties/" ++ k)
    else controlOf ("#/properties/" ++ k)
termination_by v => 4 * sizeOf v + 2
decreasing_by all_goals (simp_wf; try subst_vars; try injections; try subst_vars); all_goals simp_arith

/-- `processObject(schemaObj, path, currentForm)`. -/
def processObject (forms : List FormField) : SchemaObject → String → Option FormField → UiElem
  | .mk t _ pr _ _ _, path, currentForm =>
    if t = "object" then
      match pr with
      | some ps =>
        let els := poProps forms path ps
        match currentForm with
        | some cf =>
          if cf.formType = .group then
            .node "Group" (some path) (some cf.label) none (some els)
          else
            .node "Control" (some (cleanScopePath path)) none
              (some ("VerticalLayout", els)) none
        | none =>
          .node "Control" (some (cleanScopePath path)) none
            (some ("VerticalLayout", els)) none
      | none => .nullE
    else .nullE
termination_by so _ _ => 4 * sizeOf so
decreasing_by all_goals (simp_wf; try subst_vars; try injections; try subst_vars); all_goals simp_arith

/-- The `map` over `schemaObj.properties` in `processObject`. -/
def poProps (forms : List FormField) (path : String) :
    List (String × SchemaObject) → List UiElem
  | [] => []
  | (k, v) :: rest => poEntry forms path k v :: poProps forms path rest
termination_by l => 4 * sizeOf l + 3
decreasing_by all_goals (simp_wf; try subst_vars; try injections; try subst_vars); all_goals simp_arith

/-- One entry of the `map` in `processObject`; `newPath` follows
`path ? path + '/' + key : '#/properties/' + key`. -/
def poEntry (forms : List FormField) (path : String) (k : String) : SchemaObject → UiElem
  | v@(.mk t _ pr _ _ _) =>
    let newPath := if path = "" then "#/properties/" ++ k else path ++ "/" ++ k
    if t = "array" then
      processArrays forms v newPath (forms.find? (fun f => f.key == k))
    else if t = "object" then
      match pr with
      | some ps =>
        match forms.find? (fun f => f.key == k) with
        | some nf =>
          if nf.formType = .simple then simpleDetailControl newPath ps
          else if nf.formType = .group then groupNode nf.label newPath ps
          else processObject forms v newPath (some nf)
        | none => processObject forms v newPath none
      | none => controlOf newPath
    else controlOf newPath
termination_by v => 4 * sizeOf v + 2
decreasing_by all_goals (simp_wf; try subst_vars; try injections; try subst_vars); all_goals simp_arith
end

/-- One entry of the `rootElements` map of `generateUiSchema`. -/
def uiRootEntry (forms : List FormField) (kv : String × SchemaObject) : UiElem :=
  match kv with
  | (k, v@(.mk t _ pr _ _ _)) =>
    let path := "#/properties/" ++ k
    let form := forms.find? (fun f => f.key == k)
    if t = "array" then
      processArrays forms v path form
    else if t = "object" then
      match pr with
      | some ps =>
        match form with
        | some f =>
          if f.formType = .simple then simpleDetailControl path ps
          else if f.formType = .group then groupNode f.label path ps
          else processObject forms v path (some f)
        | none => processObject forms v path none
      | none => controlOf path
    else controlOf path

/-- `generateUiSchema(schema)`: map the root properties and drop the
`null` entries (`filter(Boolean)`). -/
def generateUiSchema (forms : List FormField) (props : List (String × SchemaObject)) : UiElem :=
  .node "VerticalLayout" none none none
    (some ((props.map (uiRootEntry forms)).filter (fun e => !e.isNull)))

/-! ### Simp lemmas for the projections -/

@[simp] theorem FormField.key_mk :
    (FormField.mk t ft lab k els p lay).key = k := rfl

@[simp] theorem FormField.label_mk :
    (FormField.mk t ft lab k els p lay).label = lab := rfl

@[simp] theorem FormField.elements_mk :
    (FormField.mk t ft lab k els p lay).elements = els := rfl

@[simp] theorem FormField.formType_mk :
    (FormField.mk t ft lab k els p lay).formType = ft := rfl

@[simp] theorem FormField.parent_mk :
    (FormField.mk t ft lab k els p lay).parent = p := rfl

@[simp] theorem FormField.layout_mk :
    (FormField.mk t ft lab k els p lay).layout = lay := rfl

@[simp] theorem FormElement.key_of_mk :
    (FormElement.mk et lab k r ef).key = k := rfl

@[simp] theorem FormElement.label_of_mk :
    (FormElement.mk et lab k r ef).label = lab := rfl

@[simp] theorem FormElement.etype_mk :
    (FormElement.mk et lab k r ef).etype = et := rfl

@[simp] theorem FormElement.required_mk :
    (FormElement.mk et lab k r ef).required = r := rfl

@[simp] theorem FormElement.eform_mk :
    (FormElement.mk et lab k r ef).eform = ef := rfl

/-! ### Claim C8: the key derivation is a pure function of the label -/

/-- Alternative slug recursion written from the spec's words: each
whitespace run (first whitespace character plus the following whitespace)
is replaced by a single hyphen. -/
theorem length_dropWhile_le (p : α → Bool) (l : List α) :
    (l.dropWhile p).length ≤ l.length := by
  induction l with
  | nil => simp [List.dropWhile]
  | cons a l ih =>
    by_cases h : p a = true <;> simp [List.dropWhile, h] <;> omega

def specSlugAux : List Char → List Char
  | [] => []
  | c :: cs =>
    if jsWs c then '-' :: specSlugAux (cs.dropWhile (fun x => jsWs x))
    else c :: specSlugAux cs
termination_by l => l.length
decreasing_by
  · exact Nat.lt_succ_of_le (length_dropWhile_le _ _)
  · exact Nat.lt_succ_of_le (Nat.le_refl _)

/-- Key derivation as the spec words it: `slugify(label) + "-" + hex(hash)`
with `slugify` = lower-case then collapse whitespace runs to one hyphen. -/
def specDeriveKey (label : String) : String :=
  String.mk (specSlugAux (label.toList.map Char.toLower)) ++ "-" ++ generateHexFromString label

theorem collapseWs_eq_spec (cs : List Char) :
    collapseWs false cs = specSlugAux cs ∧
      collapseWs true cs = specSlugAux (cs.dropWhile (fun x => jsWs x)) := by
  induction cs with
  | nil => constructor <;> simp [collapseWs, specSlugAux, List.dropWhile]
  | cons c cs ih =>
    by_cases h : jsWs c = true
    · constructor
      · simp [collapseWs, specSlugAux, h, ih.2]
      · simp [collapseWs, List.dropWhile, h, ih.2]
    · have h' : jsWs c = false := by simpa using h
      constructor
      · simp [collapseWs, specSlugAux, h', ih.1]
      · simp [collapseWs, specSlugAux, List.dropWhile, h', ih.1]

/-- Claim C8: the derived key is a pure deterministic function of the
label: it is the lower-cased label with whitespace runs collapsed to one
hyphen, followed by a hyphen and the hex of the rolling hash; identical
labels yield identical keys, and re-deriving the key in `updateForm`
(`formWithNewKey`) depends only on the label, so renaming back to a
previous label restores the previous key. -/
theorem C8_deriveKey_pure :
    (∀ label : String, deriveKey label = specDeriveKey label) ∧
    (∀ l1 l2 : String, l1 = l2 → deriveKey l1 = deriveKey l2) ∧
    (∀ u u' : FormField, u.label = u'.label →
      (formWithNewKey u).key = (formWithNewKey u').key ∧
        (formWithNewKey u).key = deriveKey u.label) := by
  refine ⟨fun label => ?_, fun l1 l2 h => h ▸ rfl, fun u u' h => ?_⟩
  · unfold deriveKey specDeriveKey jsSlug
    rw [(collapseWs_eq_spec _).1]
  · cases u with
    | mk t ft lab k els p lay =>
      cases u' with
      | mk t' ft' lab' k' els' p' lay' =>
        simp only [FormField.label_mk] at h
        subst h
        exact ⟨rfl, rfl⟩

/-- Witness for C8 at concrete inputs. -/
theorem C8_deriveKey_pure_witness :
    deriveKey "My  Label" = specDeriveKey "My  Label" ∧
      (formWithNewKey (FormField.mk "VerticalLayout" .simple "Name" "old-key" [] false none)).key
        = deriveKey "Name" :=
  ⟨C8_deriveKey_pure.1 "My  Label",
    (C8_deriveKey_pure.2.2
      (FormField.mk "VerticalLayout" .simple "Name" "old-key" [] false none)
      (FormField.mk "VerticalLayout" .simple "Name" "old-key" [] false none) rfl).2⟩

/-! ### Claims C5 and C6: `generateFormSchema` shapes -/

theorem requiredOf_eq_nil {els : List FormElement}
    (h : ∀ e ∈ els, e.required = false) : requiredOf els = [] := by
  induction els with
  | nil => rfl
  | cons e es ih =>
    have he := h e (List.mem_cons_self _ _)
    simp only [requiredOf, List.filter] at *
    rw [he]
    exact ih fun x hx => h x (List.mem_cons_of_mem _ hx)

/-- Claim C5: a `simple` form with a required string element "Name" and a
non-required date element "Birth" yields exactly the expected object
fragment, and for simple/group forms the `required` list is omitted when
no element is required. -/
theorem C5_simple_form_schema :
    (∀ (t lab fkey k1 k2 : String) (p : Bool) (lay : Option Layout), k1 ≠ k2 →
      generateFormSchema (.mk t .simple lab fkey
          [.mk .string "Name" k1 true none, .mk .date "Birth" k2 false none] p lay)
        = .mk "object" (some lab)
            (some [(k1, .mk "string" (some "Name") none none none none),
                   (k2, .mk "string" (some "Birth") none none none (some "date"))])
            none (some [k1]) none) ∧
    (∀ g : FormField, (g.formType = .simple ∨ g.formType = .group) →
      (∀ e ∈ g.elements, e.required = false) →
      (generateFormSchema g).requiredKeys = none) := by
  constructor
  · intro t lab fkey k1 k2 p lay hne
    simp [generateFormSchema, processElements, elementSchema, insertProp, requiredOf,
      List.filter, elementTypeString, hne]
  · intro g hft hreq
    cases g with
    | mk t ft lab k els p lay =>
      simp only [FormField.formType_mk, FormField.elements_mk] at hft hreq
      have : requiredOf els = [] := requiredOf_eq_nil hreq
      rcases hft with h | h <;> subst h <;>
        simp [generateFormSchema, this, SchemaObject.requiredKeys]

/-- Witness for C5. -/
theorem C5_simple_form_schema_witness :
    generateFormSchema (.mk "VerticalLayout" .simple "Person" "person-k"
        [.mk .string "Name" "name-k" true none, .mk .date "Birth" "birth-k" false none]
        false none)
      = .mk "object" (some "Person")
          (some [("name-k", .mk "string" (some "Name") none none none none),
                 ("birth-k", .mk "string" (some "Birth") none none none (some "date"))])
          none (some ["name-k"]) none :=
  C5_simple_form_schema.1 "VerticalLayout" "Person" "person-k" "name-k" "birth-k"
    false none (by decide)

theorem insertProp_of_not_mem {acc : List (String × SchemaObject)} {k : String}
    (h : k ∉ acc.map Prod.fst) (v : SchemaObject) :
    insertProp acc k v = acc ++ [(k, v)] := by
  induction acc with
  | nil => rfl
  | cons a rest ih =>
    simp only [List.map, List.mem_cons] at h
    push_neg at h
    cases a with
    | mk k' v' =>
      simp only [insertProp]
      rw [if_neg (by simpa using Ne.symm h.1)]
      simp [ih h.2]

theorem processElements_keys (els : List FormElement) :
    ∀ acc : List (String × SchemaObject),
      (acc.map Prod.fst ++ els.map FormElement.key).Nodup →
      (processElements els acc).map Prod.fst
        = acc.map Prod.fst ++ els.map FormElement.key := by
  induction els with
  | nil => intro acc _; simp [processElements]
  | cons e es ih =>
    intro acc h
    have hmem : e.key ∉ acc.map Prod.fst := by
      rcases List.nodup_append.mp h with ⟨_, _, hdisj⟩
      intro hk
      exact hdisj hk (by simp)
    rw [processElements, insertProp_of_not_mem hmem]
    have h' : ((acc ++ [(e.key, elementSchema e)]).map Prod.fst
        ++ es.map FormElement.key).Nodup := by
      simpa [List.append_assoc] using h
    rw [ih _ h']
    simp [List.append_assoc]

/-- Claim C6: an `array`-kind form yields an array fragment with the
object item fragment inside, carrying one named property per element in
element order (when element keys are distinct), with the `required` list
inside `items` and omitted when empty. -/
theorem C6_array_form_schema :
    (∀ (t lab fkey : String) (els : List FormElement) (p : Bool) (lay : Option Layout),
      generateFormSchema (.mk t .array lab fkey els p lay)
        = .mk "array" (some lab) none
            (some (.mk "object" none (some (processElements els [])) none
              (if (requiredOf els).length > 0 then some (requiredOf els) else none) none))
            none none) ∧
    (∀ els : List FormElement, (els.map FormElement.key).Nodup →
      (processElements els []).map Prod.fst = els.map FormElement.key) ∧
    (∀ (t lab fkey : String) (els : List FormElement) (p : Bool) (lay : Option Layout),
      (∀ e ∈ els, e.required = false) →
      generateFormSchema (.mk t .array lab fkey els p lay)
        = .mk "array" (some lab) none
            (some (.mk "object" none (some (processElements els [])) none none none))
            none none) := by
  refine ⟨fun t lab fkey els p lay => ?_, fun els h => ?_, fun t lab fkey els p lay h => ?_⟩
  · simp [generateFormSchema]
  · simpa using processElements_keys els [] (by simpa using h)
  · rw [generateFormSchema]
    simp [requiredOf_eq_nil h]

/-- Witness for C6. -/
theorem C6_array_form_schema_witness :
    generateFormSchema (.mk "VerticalLayout" .array "Rows" "rows-k"
        [.mk .string "Cell" "cell-k" false none] false (some .vertical))
      = .mk "array" (some "Rows") none
          (some (.mk "object" none
            (some [("cell-k", .mk "string" (some "Cell") none none none none)]) none
            none none))
          none none := by
  have := C6_array_form_schema.2.2 "VerticalLayout" "Rows" "rows-k"
    [.mk .string "Cell" "cell-k" false none] false (some .vertical)
    (by intro e he; simp at he; subst he; rfl)
  simpa [processElements, elementSchema, insertProp, elementTypeString] using this

/-! ### Claim C7: array properties and layout orientation -/

theorem paProps_length (forms : List FormField) (form : Option FormField)
    (l : List (String × SchemaObject)) : (paProps forms form l).length = l.length := by
  induction l with
  | nil => rw [paProps]; rfl
  | cons kv rest ih =>
    cases kv with
    | mk k v => rw [paProps]; simp [ih]

/-- Claim C7 amended: for an array-typed structural property the
presentation builder emits a detail-control whose inner layout is
`HorizontalLayout` exactly when the `form` argument *threaded into*
`processArrays` has horizontal orientation and `VerticalLayout` otherwise,
with one entry per item property.  The threaded form is the result of the
root-only lookup `forms.find(f => f.key === key)` at the root level and in
`poEntry`/`paEntry`, and is passed along unchanged by `paNestedEntry`; so
only a top-level array property is governed by its owning FormNode's
orientation, while an array form nested below the root collection gets
`VerticalLayout` regardless of its own orientation (see
`C7_counterexample`). -/
theorem C7_amended_array_detail_layout :
    (∀ (forms : List FormField) (ti : Option String)
       (pr : Option (List (String × SchemaObject)))
       (t2 : String) (ti2 : Option String) (ips : List (String × SchemaObject))
       (it2 : Option SchemaObject) (rq2 : Option (List String)) (fm2 : Option String)
       (rq : Option (List String)) (fm : Option String)
       (path : String) (form : Option FormField),
      processArrays forms (.mk "array" ti pr
          (some (.mk t2 ti2 (some ips) it2 rq2 fm2)) rq fm) path form
        = .node "Control" (some (cleanScopePath path)) none
            (some (detailLayoutType form, paProps forms form ips)) none
      ∧ (paProps forms form ips).length = ips.length) ∧
    ((∀ f : FormField, f.layout = some .horizontal →
        detailLayoutType (some f) = "HorizontalLayout") ∧
     (∀ f : FormField, f.layout ≠ some .horizontal →
        detailLayoutType (some f) = "VerticalLayout") ∧
     detailLayoutType none = "VerticalLayout") ∧
    (∀ (forms : List FormField) (k : String) (ti : Option String)
       (pr : Option (List (String × SchemaObject))) (it : Option SchemaObject)
       (rq : Option (List String)) (fm : Option String),
      uiRootEntry forms (k, .mk "array" ti pr it rq fm)
        = processArrays forms (.mk "array" ti pr it rq fm) ("#/properties/" ++ k)
            (forms.find? (fun f => f.key == k))) ∧
    (∀ (forms : List FormField) (path k : String) (ti : Option String)
       (pr : Option (List (String × SchemaObject))) (it : Option SchemaObject)
       (rq : Option (List String)) (fm : Option String),
      poEntry forms path k (.mk "array" ti pr it rq fm)
        = processArrays forms (.mk "array" ti pr it rq fm)
            (if path = "" then "#/properties/" ++ k else path ++ "/" ++ k)
            (forms.find? (fun f => f.key == k))) ∧
    (∀ (forms : List FormField) (form : Option FormField) (k : String) (ti : Option String)
       (pr : Option (List (String × SchemaObject))) (it : Option SchemaObject)
       (rq : Option (List String)) (fm : Option String),
      paEntry forms form k (.mk "array" ti pr it rq fm)
        = processArrays forms (.mk "array" ti pr it rq fm) ("#/properties/" ++ k) form) ∧
    (∀ (forms : List FormField) (nf : Option FormField) (k : String) (ti : Option String)
       (pr : Option (List (String × SchemaObject))) (it : Option SchemaObject)
       (rq : Option (List String)) (fm : Option String),
      paNestedEntry forms nf k (.mk "array" ti pr it rq fm)
        = processArrays forms (.mk "array" ti pr it rq fm) ("#/properties/" ++ k) nf) := by
  refine ⟨fun forms ti pr t2 ti2 ips it2 rq2 fm2 rq fm path form => ?_,
    ⟨fun f h => ?_, fun f h => ?_, rfl⟩,
    fun forms k ti pr it rq fm => ?_,
    fun forms path k ti pr it rq fm => ?_,
    fun forms form k ti pr it rq fm => ?_,
    fun forms nf k ti pr it rq fm => ?_⟩
  · exact ⟨by rw [processArrays]; simp, paProps_length forms form ips⟩
  · simp [detailLayoutType, h]
  · cases hl : f.layout with
    | none => simp [detailLayoutType, hl]
    | some l =>
      cases l with
      | vertical => simp [detailLayoutType, hl]
      | horizontal => exact absurd hl h
  · simp only [uiRootEntry.eq_def]
    simp
  · rw [poEntry.eq_def]
    simp
  · rw [paEntry.eq_def]
    simp
  · rw [paNestedEntry.eq_def]
    simp

/-- Witness for the amended claim C7: a top-level horizontal array form
(found by the root lookup) gets `HorizontalLayout`. -/
theorem C7_amended_array_detail_layout_witness :
    processArrays []
        (.mk "array" (some "Rows") none
          (some (.mk "object" none
            (some [("cell-k", .mk "string" (some "Cell") none none none none)]) none
            none none)) none none)
        "#/properties/rows-k"
        (some (.mk "VerticalLayout" .array "Rows" "rows-k" [] false (some .horizontal)))
      = .node "Control" (some "#/properties/rows-k") none
          (some ("HorizontalLayout",
            paProps [] (some (.mk "VerticalLayout" .array "Rows" "rows-k" [] false
              (some .horizontal)))
            [("cell-k", .mk "string" (some "Cell") none none none none)])) none := by
  have h1 := (C7_amended_array_detail_layout.1 [] (some "Rows") none "object" none
    [("cell-k", .mk "string" (some "Cell") none none none none)] none none none none none
    "#/properties/rows-k"
    (some (.mk "VerticalLayout" .array "Rows" "rows-k" [] false (some .horizontal)))).1
  have h2 := C7_amended_array_detail_layout.2.1.1
    (.mk "VerticalLayout" .array "Rows" "rows-k" [] false (some .horizontal)) (by simp)
  have hc : cleanScopePath "#/properties/rows-k" = "#/properties/rows-k" := by decide
  rw [h1, h2, hc]

/-! ### Claim C3: container choice for nested object properties -/

/-- The elements of the `options.detail` of a node (empty otherwise). -/
def UiElem.detailElems (e : UiElem) : List UiElem :=
  match e.detailOf with
  | some (_, l) => l
  | none => []

/-- The layout type string of the `options.detail` of a node. -/
def UiElem.detailType (e : UiElem) : String :=
  match e.detailOf with
  | some (t, _) => t
  | none => ""

/-- A concrete `group`-kind form nested inside an `array`-kind root form:
`cG` is reachable only as the embedded form of an object element of `cR`,
so it is not a member of the root collection. -/
def cG : FormField :=
  .mk "VerticalLayout" .group "G Form" "g" [.mk .string "S String" "s" false none] true none

def cR : FormField :=
  .mk "VerticalLayout" .array "R Form" "r" [.mk .object "G Form" "g" false (some cG)] false
    (some .vertical)

/-- The structural fragment that `generateJsonSchema [cR]` produces for
the nested group-kind form `cG`: a nested *object* property under key `"g"`. -/
def gSchemaLit : SchemaObject :=
  .mk "object" (some "G Form")
    (some [("s", .mk "string" (some "S String") none none none none)]) none none none

/-- The structural fragment of the root array form `cR`. -/
def rSchemaLit : SchemaObject :=
  .mk "array" (some "R Form") none
    (some (.mk "object" none (some [("g", gSchemaLit)]) none none none)) none none

theorem cG_formSchema : generateFormSchema (.mk "VerticalLayout" .group "G Form" "g"
    [.mk .string "S String" "s" false none] true none) = gSchemaLit := by
  simp [generateFormSchema, processElements, elementSchema, insertProp, elementTypeString,
    requiredOf, List.filter, gSchemaLit]

theorem cR_formSchema : generateFormSchema (.mk "VerticalLayout" .array "R Form" "r"
    [.mk .object "G Form" "g" false (some cG)] false (some .vertical)) = rSchemaLit := by
  rw [generateFormSchema.eq_def]
  simp [processElements, elementSchema, insertProp, elementTypeString,
    requiredOf, List.filter, cG, cG_formSchema, rSchemaLit]

theorem cR_processForm_step : processForm cR none ⟨[], [], []⟩
    = processChildren cR.elements "r" ⟨[("r", rSchemaLit)], [], ["r"]⟩ := by
  rw [processForm.eq_def]
  simp [cR, cR_formSchema, insertProp, requiredOf, List.filter]

theorem cG_processForm_step : processForm cG (some "r") ⟨[("r", rSchemaLit)], [], ["r"]⟩
    = ⟨[("r", rSchemaLit)], [], ["r", "g"]⟩ := by
  rw [processForm.eq_def]
  simp only [cG]
  norm_num
  rw [show jsSplit "r" '.' = ["r"] from rfl]
  simp [navInsert, lookupProp, replaceProp, insertIntoFragment, insertProp, cG_formSchema,
    rSchemaLit, gSchemaLit, processChildren, childStep]

theorem cR_buildProps : (generateJsonSchema [cR]).props = [("r", rSchemaLit)] := by
  have h0 : generateJsonSchema [cR] = processForm cR none ⟨[], [], []⟩ := by
    simp [generateJsonSchema, cR]
  rw [h0, cR_processForm_step]
  rw [show cR.elements = [FormElement.mk .object "G Form" "g" false (some cG)] from rfl]
  rw [processChildren, childStep, if_pos rfl, cG_processForm_step, processChildren]

theorem cR_uiRootEntry : uiRootEntry [cR] ("r", rSchemaLit)
    = .node "Control" (some (cleanScopePath "#/properties/r")) none
        (some ("VerticalLayout", paProps [cR] (some cR) [("g", gSchemaLit)])) none := by
  simp only [uiRootEntry.eq_def, rSchemaLit]
  norm_num
  rw [show (if cR.key = "r" then some cR else none) = some cR from rfl]
  rw [processArrays]
  rfl

theorem cR_paProps_g : paProps [cR] (some cR) [("g", gSchemaLit)]
    = [.node "Control" (some (cleanScopePath "#/properties/g")) none
        (some ("VerticalLayout",
          paNested [cR] none [("s", .mk "string" (some "S String") none none none none)])) none] := by
  rw [paProps, paProps]
  rw [paEntry.eq_def]
  simp only [gSchemaLit]
  norm_num
  rw [show (if cR.key = "g" then some cR else none) = (none : Option FormField) from rfl]
  rfl

theorem cR_uiElements : (generateUiSchema [cR] [("r", rSchemaLit)]).elementsOf
    = [.node "Control" (some (cleanScopePath "#/properties/r")) none
        (some ("VerticalLayout", paProps [cR] (some cR) [("g", gSchemaLit)])) none] := by
  simp [generateUiSchema, UiElem.elementsOf, cR_uiRootEntry, UiElem.isNull]

/-- Counterexample to claim C3: in the tree `[cR]` the structural schema
is `[("r", rSchemaLit)]` and contains the nested *object* property `"g"`
whose matching FormNode `cG` has kind `group`, yet the presentation
builder emits a detail-`Control` node for it, not a labelled `Group`
container: the kind lookup `forms.find(f => f.key === key)` searches only
the root collection, where `cG` does not occur. -/
theorem C3_counterexample :
    cG.formType = FormType.group ∧
    (generateJsonSchema [cR]).props = [("r", rSchemaLit)] ∧
    gSchemaLit.type = "object" ∧ (gSchemaLit.properties).isSome = true ∧
    (((generateUiSchema [cR] [("r", rSchemaLit)]).elementsOf.headD .nullE).detailElems.headD .nullE).typeStr
      = "Control" ∧
    (((generateUiSchema [cR] [("r", rSchemaLit)]).elementsOf.headD .nullE).detailElems.headD .nullE).typeStr
      ≠ "Group" := by
  have hJ : (((generateUiSchema [cR] [("r", rSchemaLit)]).elementsOf.headD .nullE).detailElems.headD .nullE).typeStr
      = "Control" := by
    rw [cR_uiElements]
    show ((paProps [cR] (some cR) [("g", gSchemaLit)]).headD .nullE).typeStr = "Control"
    rw [cR_paProps_g]
    rfl
  refine ⟨rfl, cR_buildProps, rfl, rfl, hJ, ?_⟩
  rw [hJ]
  decide

/-- Claim C3 amended: the kind-based container choice (`group` → labelled
`Group` container with flat controls, `simple` → single detail-control)
applies exactly when the property's key matches a form found in the *root*
collection; when the lookup misses — as it does for every form nested
below the root collection, whose keys occur only in nested positions — the
builder falls back to the generic detail-control wrapper regardless of the
owning form's kind. -/
theorem C3_amended_container_choice :
    (∀ (forms : List FormField) (k : String) (ti : Option String)
       (ps : List (String × SchemaObject)) (it : Option SchemaObject)
       (rq : Option (List String)) (fm : Option String) (f : FormField),
      forms.find? (fun g => g.key == k) = some f →
      (f.formType = .group →
        uiRootEntry forms (k, .mk "object" ti (some ps) it rq fm)
          = groupNode f.label ("#/properties/" ++ k) ps) ∧
      (f.formType = .simple →
        uiRootEntry forms (k, .mk "object" ti (some ps) it rq fm)
          = simpleDetailControl ("#/properties/" ++ k) ps)) ∧
    (∀ (forms : List FormField) (path k : String) (ti : Option String)
       (ps : List (String × SchemaObject)) (it : Option SchemaObject)
       (rq : Option (List String)) (fm : Option String) (f : FormField),
      forms.find? (fun g => g.key == k) = some f →
      (f.formType = .group →
        poEntry forms path k (.mk "object" ti (some ps) it rq fm)
          = groupNode f.label (if path = "" then "#/properties/" ++ k else path ++ "/" ++ k) ps) ∧
      (f.formType = .simple →
        poEntry forms path k (.mk "object" ti (some ps) it rq fm)
          = simpleDetailControl (if path = "" then "#/properties/" ++ k else path ++ "/" ++ k) ps)) ∧
    (∀ (forms : List FormField) (path k : String) (ti : Option String)
       (ps : List (String × SchemaObject)) (it : Option SchemaObject)
       (rq : Option (List String)) (fm : Option String),
      forms.find? (fun g => g.key == k) = none →
      poEntry forms path k (.mk "object" ti (some ps) it rq fm)
        = .node "Control"
            (some (cleanScopePath (if path = "" then "#/properties/" ++ k else path ++ "/" ++ k)))
            none
            (some ("VerticalLayout",
              poProps forms (if path = "" then "#/properties/" ++ k else path ++ "/" ++ k) ps))
            none) := by
  refine ⟨fun forms k ti ps it rq fm f hf => ⟨fun hg => ?_, fun hs => ?_⟩,
    fun forms path k ti ps it rq fm f hf => ⟨fun hg => ?_, fun hs => ?_⟩,
    fun forms path k ti ps it rq fm hf => ?_⟩
  · simp [uiRootEntry, hf, hg]
  · simp [uiRootEntry, hf, hs]
  · rw [poEntry]; simp [hf, hg]
  · rw [poEntry]; simp [hf, hs]
  · rw [poEntry]; simp [hf]
    rw [processObject]; simp

/-- Witness for the amended claim C3 at a root-level `group` form. -/
theorem C3_amended_container_choice_witness :
    uiRootEntry [.mk "VerticalLayout" .group "Top" "top" [] false none]
        ("top", .mk "object" (some "Top")
          (some [("s", .mk "string" (some "S") none none none none)]) none none none)
      = groupNode "Top" "#/properties/top"
          [("s", .mk "string" (some "S") none none none none)] :=
  (C3_amended_container_choice.1 [.mk "VerticalLayout" .group "Top" "top" [] false none]
    "top" (some "Top") [("s", .mk "string" (some "S") none none none none)] none none none
    (.mk "VerticalLayout" .group "Top" "top" [] false none) rfl).1 rfl

/-! ### Claim C1: the key/label derivation invariant across operations -/

theorem goodElems_append (es : List FormElement) (e : FormElement) :
    goodElems (es ++ [e]) = (goodElems es && goodElem e) := by
  induction es with
  | nil => rw [List.nil_append, goodElems, goodElems, goodElems]; simp
  | cons x xs ih =>
    rw [List.cons_append, goodElems, goodElems, ih, Bool.and_assoc]

theorem goodElems_filter {es : List FormElement} (h : goodElems es = true)
    (p : FormElement → Bool) : goodElems (es.filter p) = true := by
  induction es with
  | nil => exact h
  | cons x xs ih =>
    rw [goodElems, Bool.and_eq_true] at h
    rw [List.filter]
    cases hp : p x
    · exact ih h.2
    · rw [goodElems, h.1, ih h.2]; rfl

theorem goodElems_map_replace {es : List FormElement} {upd : FormElement}
    (hu : goodElem upd = true) (h : goodElems es = true) :
    goodElems (es.map (fun e => if e.key = upd.key then upd else e)) = true := by
  induction es with
  | nil => exact h
  | cons x xs ih =>
    rw [goodElems, Bool.and_eq_true] at h
    rw [List.map, goodElems]
    by_cases hk : x.key = upd.key
    · rw [if_pos hk, hu, ih h.2]; rfl
    · rw [if_neg hk, h.1, ih h.2]; rfl

theorem goodElems_modifyIdx {es : List FormElement} {f : FormElement → FormElement}
    (hf : ∀ e, goodElem e = true → goodElem (f e) = true) (i : Nat)
    (h : goodElems es = true) : goodElems (modifyIdx f i es) = true := by
  induction es generalizing i with
  | nil => cases i <;> exact h
  | cons x xs ih =>
    rw [goodElems, Bool.and_eq_true] at h
    cases i with
    | zero => rw [modifyIdx, goodElems, hf x h.1, h.2]; rfl
    | succ n => rw [modifyIdx, goodElems, h.1, ih n h.2]; rfl

theorem goodForm_setElements {g : FormField} {es : List FormElement}
    (hg : goodForm g = true) (hes : goodElems es = true) :
    goodForm (g.setElements es) = true := by
  cases g with
  | mk t ft lab k els p lay =>
    rw [FormField.setElements, goodForm] at *
    rw [Bool.and_eq_true] at hg
    rw [hg.1, hes]; rfl

theorem goodForm_elements {g : FormField} (hg : goodForm g = true) :
    goodElems g.elements = true := by
  cases g with
  | mk t ft lab k els p lay =>
    rw [goodForm, Bool.and_eq_true] at hg
    exact hg.2

theorem goodForm_modifyFormAt {f : FormField → FormField}
    (hf : ∀ g, goodForm g = true → goodForm (f g) = true) :
    ∀ (addr : Addr) (g : FormField), goodForm g = true →
      goodForm (modifyFormAt f addr g) = true := by
  intro addr
  induction addr with
  | nil => intro g hg; rw [modifyFormAt]; exact hf g hg
  | cons i rest ih =>
    intro g hg
    rw [modifyFormAt]
    refine goodForm_setElements hg (goodElems_modifyIdx ?_ i (goodForm_elements hg))
    intro e he
    cases e with
    | mk et lab k req ef =>
      cases ef with
      | none => exact he
      | some hh =>
        dsimp only
        by_cases het : et = ElementType.object
        · rw [if_pos het]
          rw [goodElem, Bool.and_eq_true] at he
          rw [goodElem, he.1, ih hh he.2]; rfl
        · rw [if_neg het]; exact he

theorem mem_modifyIdx {l : List α} {f : α → α} :
    ∀ {i : Nat} {x : α}, x ∈ modifyIdx f i l → x ∈ l ∨ ∃ y ∈ l, x = f y := by
  induction l with
  | nil => intro i x hx; cases i <;> simp [modifyIdx] at hx
  | cons y ys ih =>
    intro i x hx
    cases i with
    | zero =>
      rw [modifyIdx] at hx
      rcases List.mem_cons.mp hx with hx | hx
      · exact Or.inr ⟨y, List.mem_cons_self _ _, hx⟩
      · exact Or.inl (List.mem_cons_of_mem _ hx)
    | succ n =>
      rw [modifyIdx] at hx
      rcases List.mem_cons.mp hx with hx | hx
      · exact Or.inl (hx ▸ List.mem_cons_self _ _)
      · rcases ih hx with hx | ⟨z, hz, rfl⟩
        · exact Or.inl (List.mem_cons_of_mem _ hx)
        · exact Or.inr ⟨z, List.mem_cons_of_mem _ hz, rfl⟩

theorem goodForms_modifyForms {f : FormField → FormField}
    (hf : ∀ g, goodForm g = true → goodForm (f g) = true) :
    ∀ (addr : Addr) (forms : List FormField), goodForms forms = true →
      goodForms (modifyForms f addr forms) = true := by
  intro addr
  cases addr with
  | nil => intro forms h; exact h
  | cons i rest =>
    intro forms h
    rw [modifyForms]
    rw [goodForms, List.all_eq_true] at *
    intro x hx
    rcases mem_modifyIdx hx with hx | ⟨y, hy, rfl⟩
    · exact h x hx
    · exact goodForm_modifyFormAt hf rest y (h y hy)

theorem good_newPlainElem (base : String) (t : ElementType) :
    goodElem (newPlainElem base t) = true := by
  rw [newPlainElem, generateElementName, goodElem]
  simp

theorem good_newElemForm (base : String) : goodForm (newElemForm base) = true := by
  rw [newElemForm, generateElementName, goodForm, goodElems]
  simp

theorem good_newObjElem (base : String) : goodElem (newObjElem base) = true := by
  rw [newObjElem, generateElementName, goodElem]
  simp [good_newElemForm base]

theorem good_newRootForm (base : String) (t : FormType) :
    goodForm (newRootForm base t) = true := by
  rw [newRootForm, generateFormName, goodForm, goodElems]
  simp

theorem good_newNestedForm (base : String) (t : FormType) :
    goodForm (newNestedForm base t) = true := by
  rw [newNestedForm, generateFormName, goodForm, goodElems]
  simp

theorem good_newNestedFormElem (base : String) (t : FormType) :
    goodElem (newNestedFormElem base t) = true := by
  rw [newNestedFormElem, generateFormName, goodElem]
  simp [good_newNestedForm base t]

mutual
theorem good_updateNestedForms (u : FormField) (hu : goodElems u.elements = true) :
    ∀ g : FormField, goodForm g = true → goodForm (updateNestedForms u g) = true
  | .mk t ft lab k els p lay, hg => by
    rw [updateNestedForms]
    by_cases hk : k = u.key
    · rw [if_pos hk]
      cases u with
      | mk ut uft ulab uk uels up ulay =>
        rw [formWithNewKey, goodForm]
        rw [FormField.elements_mk] at hu
        simp [hu]
    · rw [if_neg hk, goodForm]
      rw [goodForm, Bool.and_eq_true] at hg
      rw [hg.1, good_updateNestedElems u hu els hg.2]; rfl

theorem good_updateNestedElems (u : FormField) (hu : goodElems u.elements = true) :
    ∀ es : List FormElement, goodElems es = true → goodElems (updateNestedElems u es) = true
  | [], h => by rw [updateNestedElems]; exact h
  | e :: es, h => by
    rw [goodElems, Bool.and_eq_true] at h
    rw [updateNestedElems, goodElems, good_updateNestedElem u hu e h.1,
      good_updateNestedElems u hu es h.2]; rfl

theorem good_updateNestedElem (u : FormField) (hu : goodElems u.elements = true) :
    ∀ e : FormElement, goodElem e = true → goodElem (updateNestedElem u e) = true
  | .mk et lab k req none, h => by rw [updateNestedElem]; exact h
  | .mk et lab k req (some hh), h => by
    rw [goodElem, Bool.and_eq_true] at h
    rw [updateNestedElem]
    by_cases het : et = ElementType.object
    · rw [if_pos het]
      have hgood := good_updateNestedForms u hu hh h.2
      cases hform : updateNestedForms u hh with
      | mk t2 ft2 lab2 k2 els2 p2 lay2 =>
        rw [hform] at hgood
        rw [goodForm, Bool.and_eq_true] at hgood
        rw [goodElem, FormField.label_mk, FormField.key_mk, hgood.1]
        rw [goodForm, hgood.1, hgood.2]
        rfl
    · rw [if_neg het, goodElem, h.1, h.2]; rfl
end

theorem goodForms_updateFormTree {u : FormField} (hu : goodElems u.elements = true)
    {forms : List FormField} (h : goodForms forms = true) :
    goodForms (updateFormTree u forms) = true := by
  rw [updateFormTree]
  rw [goodForms, List.all_eq_true] at *
  intro x hx
  rcases List.mem_map.mp hx with ⟨y, hy, rfl⟩
  exact good_updateNestedForms u hu y (h y hy)

/-- The per-operation side condition under which the derivation invariant
is preserved: `updateForm` must be fed a form whose elements already
satisfy the invariant (in the UI this is a copy of a tree node), and
`updateElement` must be fed an element whose key is derived from its
label.  The UI violates the latter when the label is edited, which is
claim C1's failure. -/
def OkOp : Op → Prop
  | .updateForm u => goodElems u.elements = true
  | .updateElement upd _ => goodElem upd = true
  | _ => True

theorem good_applyOp {op : Op} (hop : OkOp op) {forms : List FormField}
    (h : goodForms forms = true) : goodForms (applyOp op forms) = true := by
  cases op with
  | addRootForm base t =>
    rw [applyOp]
    rw [goodForms, List.all_eq_true] at *
    intro x hx
    rcases List.mem_append.mp hx with hx | hx
    · exact h x hx
    · rw [List.mem_singleton.mp hx]; exact good_newRootForm base t
  | addNestedForm base t addr =>
    rw [applyOp]
    refine goodForms_modifyForms (fun g hg => ?_) addr forms h
    refine goodForm_setElements hg ?_
    rw [goodElems_append, goodForm_elements hg, good_newNestedFormElem base t]
    rfl
  | addElement base t addr =>
    rw [applyOp]
    refine goodForms_modifyForms (fun g hg => ?_) addr forms h
    rw [addElementTo]
    by_cases ht : t = ElementType.object
    · rw [if_pos ht]
      refine goodForm_setElements hg ?_
      rw [goodElems_append, goodForm_elements hg, good_newObjElem base]
      rfl
    · rw [if_neg ht]
      refine goodForm_setElements hg ?_
      rw [goodElems_append, goodForm_elements hg, good_newPlainElem base t]
      rfl
  | updateForm u =>
    rw [applyOp]
    exact goodForms_updateFormTree hop h
  | updateElement upd addr =>
    rw [applyOp]
    refine goodForms_modifyForms (fun g hg => ?_) addr forms h
    rw [updateElementIn]
    exact goodForm_setElements hg (goodElems_map_replace hop (goodForm_elements hg))
  | deleteRoot key =>
    rw [applyOp, deleteRootForm]
    rw [goodForms, List.all_eq_true] at *
    intro x hx
    exact h x (List.mem_of_mem_filter hx)
  | deleteNested key addr =>
    rw [applyOp]
    refine goodForms_modifyForms (fun g hg => ?_) addr forms h
    rw [deleteNestedFormIn]
    exact goodForm_setElements hg (goodElems_filter (goodForm_elements hg) _)
  | deleteElement key addr =>
    rw [applyOp]
    refine goodForms_modifyForms (fun g hg => ?_) addr forms h
    rw [deleteElementIn]
    exact goodForm_setElements hg (goodElems_filter (goodForm_elements hg) _)

/-- Claim C1 amended: after any sequence of mutating operations the
invariant `key = deriveKey(label)` holds at every node of the tree,
*provided* every `updateForm` payload has invariant-satisfying elements
and every `updateElement` payload itself satisfies the invariant.
`updateElement` installs its argument verbatim (page.tsx 367–373), so the
unconditional claim fails exactly there — see `C1_counterexample`. -/
theorem C1_amended_good_invariant (ops : List Op) :
    ∀ forms : List FormField, (∀ op ∈ ops, OkOp op) → goodForms forms = true →
      goodForms (applyOps ops forms) = true := by
  induction ops with
  | nil => intro forms _ h; exact h
  | cons op rest ih =>
    intro forms hops h
    show goodForms (applyOps rest (applyOp op forms)) = true
    exact ih _ (fun o ho => hops o (List.mem_cons_of_mem _ ho))
      (good_applyOp (hops op (List.mem_cons_self _ _)) h)

/-- Witness for the amended claim C1. -/
theorem C1_amended_good_invariant_witness :
    goodForms (applyOps [.addRootForm "Tidy Red" .simple,
      .addElement "Calm Blue" .string [0]] []) = true :=
  C1_amended_good_invariant _ []
    (by
      intro op hop
      rcases List.mem_cons.mp hop with h | h
      · subst h; exact trivial
      · rcases List.mem_cons.mp h with h | h
        · subst h; exact trivial
        · cases h)
    (by rw [goodForms]; rfl)

/-- Counterexample to claim C1 as stated: a tree satisfying the invariant,
to which `updateElement` is applied with an element whose label was edited
from "Name String" to "Names" while its key (derived from the old label,
as the editing UI keeps it) is unchanged; afterwards the element's key is
not `deriveKey` of its label. -/
theorem C1_counterexample :
    goodForms [FormField.mk "VerticalLayout" .simple "F Form" (deriveKey "F Form")
        [.mk .string "Name String" (deriveKey "Name String") false none] false none] = true ∧
    (FormElement.mk .string "Names" (deriveKey "Name String") false none).key
      = deriveKey "Name String" ∧
    deriveKey "Names" ≠ deriveKey "Name String" ∧
    goodForms (applyOp
        (.updateElement (.mk .string "Names" (deriveKey "Name String") false none) [0])
        [FormField.mk "VerticalLayout" .simple "F Form" (deriveKey "F Form")
          [.mk .string "Name String" (deriveKey "Name String") false none] false none])
      = false := by
  have hne : (deriveKey "Name String" == deriveKey "Names") = false := by decide
  have happ : applyOp
      (.updateElement (.mk .string "Names" (deriveKey "Name String") false none) [0])
      [FormField.mk "VerticalLayout" .simple "F Form" (deriveKey "F Form")
        [.mk .string "Name String" (deriveKey "Name String") false none] false none]
    = [FormField.mk "VerticalLayout" .simple "F Form" (deriveKey "F Form")
        [.mk .string "Names" (deriveKey "Name String") false none] false none] := by
    rw [applyOp, modifyForms, modifyIdx, modifyFormAt, updateElementIn]
    norm_num
    rfl
  refine ⟨?_, rfl, ?_, ?_⟩
  · rw [goodForms]
    simp [goodForm, goodElems, goodElem]
  · intro hcontra
    rw [hcontra] at hne
    simp at hne
  · rw [happ, goodForms]
    simp [goodForm, goodElems, goodElem, hne]

/-! ### Claim C9: lookup misses are silent no-ops -/

theorem setElements_self (g : FormField) : g.setElements g.elements = g := by
  cases g with
  | mk t ft lab k els p lay => rfl

theorem modifyIdx_fix {f : α → α} :
    ∀ (l : List α) (i : Nat), (∀ x, l.get? i = some x → f x = x) → modifyIdx f i l = l := by
  intro l
  induction l with
  | nil => intro i _; cases i <;> rfl
  | cons y ys ih =>
    intro i h
    cases i with
    | zero => rw [modifyIdx, h y rfl]
    | succ n => rw [modifyIdx, ih n fun x hx => h x hx]

theorem modifyFormAt_fix {f : FormField → FormField} :
    ∀ (addr : Addr) (g : FormField),
      (∀ tgt, findFormAt addr g = some tgt → f tgt = tgt) →
      modifyFormAt f addr g = g := by
  intro addr
  induction addr with
  | nil => intro g h; exact h g rfl
  | cons i rest ih =>
    intro g h
    rw [modifyFormAt]
    rw [modifyIdx_fix _ _ ?_, setElements_self]
    intro e he
    cases e with
    | mk et lab k req ef =>
      cases ef with
      | none => dsimp only
      | some hh =>
        dsimp only
        by_cases het : et = ElementType.object
        · rw [if_pos het]
          have : modifyFormAt f rest hh = hh := by
            refine ih hh fun tgt htgt => h tgt ?_
            rw [findFormAt, he]
            dsimp only
            rw [if_pos het]
            exact htgt
          rw [this]
        · rw [if_neg het]

theorem modifyForms_fix {f : FormField → FormField} :
    ∀ (addr : Addr) (forms : List FormField),
      (∀ tgt, findForms addr forms = some tgt → f tgt = tgt) →
      modifyForms f addr forms = forms := by
  intro addr
  cases addr with
  | nil => intro forms _; rfl
  | cons i rest =>
    intro forms h
    rw [modifyForms]
    refine modifyIdx_fix _ _ fun g hg => ?_
    refine modifyFormAt_fix rest g fun tgt htgt => h tgt ?_
    rw [findForms, hg]
    exact htgt

/-- Claim C9: for a key absent from its expected scope, `deleteForm` (both
the root branch and the nested branch), `deleteElement` and
`updateElement` leave the form tree entirely unchanged — the lookup miss
raises no failure and rewrites no other node. -/
theorem C9_lookup_miss_noop :
    (∀ (key : String) (forms : List FormField),
      (∀ f ∈ forms, f.key ≠ key) →
      applyOp (.deleteRoot key) forms = forms) ∧
    (∀ (key : String) (addr : Addr) (forms : List FormField),
      (∀ tgt, findForms addr forms = some tgt →
        ∀ e ∈ tgt.elements, e.etype = .object → ∀ h, e.eform = some h → h.key ≠ key) →
      applyOp (.deleteNested key addr) forms = forms) ∧
    (∀ (key : String) (addr : Addr) (forms : List FormField),
      (∀ tgt, findForms addr forms = some tgt → ∀ e ∈ tgt.elements, e.key ≠ key) →
      applyOp (.deleteElement key addr) forms = forms) ∧
    (∀ (upd : FormElement) (addr : Addr) (forms : List FormField),
      (∀ tgt, findForms addr forms = some tgt → ∀ e ∈ tgt.elements, e.key ≠ upd.key) →
      applyOp (.updateElement upd addr) forms = forms) := by
  refine ⟨fun key forms h => ?_, fun key addr forms h => ?_,
    fun key addr forms h => ?_, fun upd addr forms h => ?_⟩
  · rw [applyOp, deleteRootForm]
    rw [List.filter_eq_self]
    intro f hf
    simpa using h f hf
  · rw [applyOp]
    refine modifyForms_fix addr forms fun tgt htgt => ?_
    rw [deleteNestedFormIn]
    rw [show tgt.elements.filter (fun e =>
        !(e.etype = ElementType.object &&
          (match e.eform with | some hh => hh.key == key | none => false))) = tgt.elements from ?_,
      setElements_self]
    rw [List.filter_eq_self]
    intro e he
    have := h tgt htgt e he
    cases e with
    | mk et lab k req ef =>
      cases ef with
      | none => simp
      | some hh =>
        simp only [FormElement.etype_mk, FormElement.eform_mk] at this
        by_cases het : et = ElementType.object
        · have hk := this het hh rfl
          simp [het, hk]
        · simp [het]
  · rw [applyOp]
    refine modifyForms_fix addr forms fun tgt htgt => ?_
    rw [deleteElementIn]
    rw [show tgt.elements.filter (fun e => e.key ≠ key) = tgt.elements from ?_,
      setElements_self]
    rw [List.filter_eq_self]
    intro e he
    simpa using h tgt htgt e he
  · rw [applyOp]
    refine modifyForms_fix addr forms fun tgt htgt => ?_
    rw [updateElementIn]
    have hmap : ∀ es : List FormElement, (∀ e ∈ es, e.key ≠ upd.key) →
        es.map (fun e => if e.key = upd.key then upd else e) = es := by
      intro es
      induction es with
      | nil => intro _; rfl
      | cons e es ih =>
        intro h'
        rw [List.map, if_neg (h' e (List.mem_cons_self _ _)),
          ih fun x hx => h' x (List.mem_cons_of_mem _ hx)]
    rw [hmap _ (h tgt htgt), setElements_self]

/-- Witness for C9 at a concrete tree and missing keys. -/
theorem C9_lookup_miss_noop_witness :
    applyOp (.deleteRoot "zzz")
        [FormField.mk "VerticalLayout" .group "A" "a"
          [.mk .string "B" "b" false none] false none]
      = [FormField.mk "VerticalLayout" .group "A" "a"
          [.mk .string "B" "b" false none] false none] ∧
    applyOp (.deleteElement "zzz" [0])
        [FormField.mk "VerticalLayout" .group "A" "a"
          [.mk .string "B" "b" false none] false none]
      = [FormField.mk "VerticalLayout" .group "A" "a"
          [.mk .string "B" "b" false none] false none] ∧
    applyOp (.updateElement (.mk .string "Z" "zzz" false none) [0])
        [FormField.mk "VerticalLayout" .group "A" "a"
          [.mk .string "B" "b" false none] false none]
      = [FormField.mk "VerticalLayout" .group "A" "a"
          [.mk .string "B" "b" false none] false none] ∧
    applyOp (.deleteNested "zzz" [0])
        [FormField.mk "VerticalLayout" .group "A" "a"
          [.mk .string "B" "b" false none] false none]
      = [FormField.mk "VerticalLayout" .group "A" "a"
          [.mk .string "B" "b" false none] false none] := by
  refine ⟨C9_lookup_miss_noop.1 "zzz" _ ?_, C9_lookup_miss_noop.2.2.1 "zzz" [0] _ ?_,
    C9_lookup_miss_noop.2.2.2 (.mk .string "Z" "zzz" false none) [0] _ ?_,
    C9_lookup_miss_noop.2.1 "zzz" [0] _ ?_⟩
  · intro f hf
    rw [List.mem_singleton.mp hf]
    decide
  · intro tgt htgt
    rw [show findForms [0] [FormField.mk "VerticalLayout" .group "A" "a"
        [.mk .string "B" "b" false none] false none]
      = some (FormField.mk "VerticalLayout" .group "A" "a"
        [.mk .string "B" "b" false none] false none) from rfl] at htgt
    cases htgt
    intro e he
    rw [List.mem_singleton.mp he]
    decide
  · intro tgt htgt
    rw [show findForms [0] [FormField.mk "VerticalLayout" .group "A" "a"
        [.mk .string "B" "b" false none] false none]
      = some (FormField.mk "VerticalLayout" .group "A" "a"
        [.mk .string "B" "b" false none] false none) from rfl] at htgt
    cases htgt
    intro e he
    rw [List.mem_singleton.mp he]
    decide
  · intro tgt htgt
    rw [show findForms [0] [FormField.mk "VerticalLayout" .group "A" "a"
        [.mk .string "B" "b" false none] false none]
      = some (FormField.mk "VerticalLayout" .group "A" "a"
        [.mk .string "B" "b" false none] false none) from rfl] at htgt
    cases htgt
    intro e he
    rw [List.mem_singleton.mp he]
    intro het
    exact absurd het (by decide)

/-! ### Claim C10: element/embedded-form identity (`element.key = embeddedForm.key`) -/

mutual
theorem synced_updateNestedForms (u : FormField) (hu : syncedElems u.elements = true) :
    ∀ g : FormField, syncedForm (updateNestedForms u g) = true
  | .mk t ft lab k els p lay => by
    rw [updateNestedForms]
    by_cases hk : k = u.key
    · rw [if_pos hk]
      cases u with
      | mk ut uft ulab uk uels up ulay =>
        rw [FormField.elements_mk] at hu
        rw [formWithNewKey, syncedForm]
        exact hu
    · rw [if_neg hk, syncedForm]
      exact synced_updateNestedElems u hu els

theorem synced_updateNestedElems (u : FormField) (hu : syncedElems u.elements = true) :
    ∀ es : List FormElement, syncedElems (updateNestedElems u es) = true
  | [] => by rw [updateNestedElems, syncedElems]
  | e :: es => by
    rw [updateNestedElems, syncedElems, synced_updateNestedElem u hu e,
      synced_updateNestedElems u hu es]; rfl

theorem synced_updateNestedElem (u : FormField) (hu : syncedElems u.elements = true) :
    ∀ e : FormElement, syncedElem (updateNestedElem u e) = true
  | .mk et lab k req none => by rw [updateNestedElem, syncedElem]
  | .mk et lab k req (some hh) => by
    rw [updateNestedElem]
    by_cases het : et = ElementType.object
    · rw [if_pos het]
      rw [syncedElem, if_pos het, synced_updateNestedForms u hu hh]
      simp
    · rw [if_neg het, syncedElem, if_neg het]
end

/-- Claim C10: a nested form created by `addForm` at a non-empty path or
by `addElement` with the `object` value type is wrapped in an element
carrying the very same label and key as the embedded form, and
`updateForm` (re-)establishes this `element.key = embeddedForm.key /
element.label = embeddedForm.label` identity for every embedding element
of the tree, provided the payload's own elements are synced (in the UI the
payload is a copy of a tree node). -/
theorem C10_embed_identity :
    (∀ (base : String) (t : FormType),
      (newNestedFormElem base t).label = (newNestedForm base t).label ∧
      (newNestedFormElem base t).key = (newNestedForm base t).key ∧
      (newNestedFormElem base t).eform = some (newNestedForm base t) ∧
      (∀ (addr : Addr) (forms : List FormField),
        applyOp (.addNestedForm base t addr) forms
          = modifyForms (fun g => g.setElements (g.elements ++ [newNestedFormElem base t]))
              addr forms)) ∧
    (∀ base : String,
      (newObjElem base).label = (newElemForm base).label ∧
      (newObjElem base).key = (newElemForm base).key ∧
      (newObjElem base).eform = some (newElemForm base) ∧
      (∀ g : FormField, addElementTo base .object g
        = g.setElements (g.elements ++ [newObjElem base]))) ∧
    (∀ (u : FormField) (forms : List FormField), syncedElems u.elements = true →
      ∀ f ∈ updateFormTree u forms, syncedForm f = true) := by
  refine ⟨fun base t => ⟨rfl, rfl, rfl, fun addr forms => rfl⟩,
    fun base => ⟨rfl, rfl, rfl, fun g => by rw [addElementTo, if_pos rfl]⟩,
    fun u forms hu f hf => ?_⟩
  rw [updateFormTree] at hf
  rcases List.mem_map.mp hf with ⟨y, _, rfl⟩
  exact synced_updateNestedForms u hu y

/-- Witness for C10. -/
theorem C10_embed_identity_witness :
    (newObjElem "Calm Blue").key = (newElemForm "Calm Blue").key ∧
    ∀ f ∈ updateFormTree
        (FormField.mk "VerticalLayout" .simple "New Name" "old-key" [] false none) [],
      syncedForm f = true :=
  ⟨(C10_embed_identity.2.1 "Calm Blue").2.1,
    C10_embed_identity.2.2
      (FormField.mk "VerticalLayout" .simple "New Name" "old-key" [] false none) []
      (by rw [FormField.elements_mk, syncedElems])⟩

/-! ### Claim C4: renaming a referenced form cascades to elements and path -/

theorem updateNestedElems_eq_map (u : FormField) :
    ∀ es : List FormElement, updateNestedElems u es = es.map (updateNestedElem u) := by
  intro es
  induction es with
  | nil => rw [updateNestedElems]; rfl
  | cons e es ih => rw [updateNestedElems, List.map, ih]

/-- Claim C4: after `updateForm` renames a form, every object element that
embedded the node with the old key now carries the renamed form's new
label and re-derived key and embeds the updated node (`formWithNewKey`);
every entry of the navigation path whose key matched the renamed form is
replaced by the updated node (no stale breadcrumb), while other entries
get the recursive element rewrite. -/
theorem C4_rename_cascades :
    (∀ (u : FormField) (e : FormElement) (h : FormField),
      e.etype = .object → e.eform = some h → h.key = u.key →
      updateNestedElem u e
        = .mk .object u.label (deriveKey u.label) e.required (some (formWithNewKey u))) ∧
    (∀ (u g : FormField), g.key ≠ u.key →
      updateNestedForms u g = g.setElements (g.elements.map (updateNestedElem u))) ∧
    (∀ (u : FormField) (forms path : List FormField),
      updateFormFull u forms path
        = (forms.map (updateNestedForms u), path.map (updateFormPathEntry u))) ∧
    (∀ (u p : FormField), p.key = u.key → updateFormPathEntry u p = formWithNewKey u) ∧
    (∀ (u p : FormField), p.key ≠ u.key → updateFormPathEntry u p = updateNestedForms u p) ∧
    (∀ u : FormField, (formWithNewKey u).label = u.label ∧
      (formWithNewKey u).key = deriveKey u.label) := by
  refine ⟨fun u e h he hef hk => ?_, fun u g hg => ?_, fun u forms path => rfl,
    fun u p hp => by rw [updateFormPathEntry, if_pos hp],
    fun u p hp => by rw [updateFormPathEntry, if_neg hp],
    fun u => by cases u with | mk t ft lab k els p lay => exact ⟨rfl, rfl⟩⟩
  · cases e with
    | mk et lab k req ef =>
      rw [FormElement.etype_mk] at he
      subst he
      rw [FormElement.eform_mk] at hef
      subst hef
      rw [FormElement.required_mk, updateNestedElem, if_pos rfl]
      have hnf : updateNestedForms u h = formWithNewKey u := by
        cases h with
        | mk t2 ft2 lab2 k2 els2 p2 lay2 =>
          rw [FormField.key_mk] at hk
          rw [updateNestedForms, if_pos hk]
      rw [hnf]
      cases u with
      | mk ut uft ulab uk uels up ulay => rfl
  · cases g with
    | mk t ft lab k els p lay =>
      rw [FormField.key_mk] at hg
      rw [updateNestedForms, if_neg hg, updateNestedElems_eq_map]
      rfl

/-- Witness for C4 at a concrete renamed form. -/
theorem C4_rename_cascades_witness :
    updateNestedElem
        (FormField.mk "VerticalLayout" .group "New Name" "old-key" [] true none)
        (.mk .object "Old Name" "old-key" false
          (some (.mk "VerticalLayout" .group "Old Name" "old-key" [] true none)))
      = .mk .object "New Name" (deriveKey "New Name") false
          (some (formWithNewKey
            (FormField.mk "VerticalLayout" .group "New Name" "old-key" [] true none))) ∧
    updateFormPathEntry
        (FormField.mk "VerticalLayout" .group "New Name" "old-key" [] true none)
        (.mk "VerticalLayout" .group "Old Name" "old-key" [] true none)
      = formWithNewKey
          (FormField.mk "VerticalLayout" .group "New Name" "old-key" [] true none) :=
  ⟨C4_rename_cascades.1
      (FormField.mk "VerticalLayout" .group "New Name" "old-key" [] true none)
      (.mk .object "Old Name" "old-key" false
        (some (.mk "VerticalLayout" .group "Old Name" "old-key" [] true none)))
      (.mk "VerticalLayout" .group "Old Name" "old-key" [] true none) rfl rfl rfl,
    C4_rename_cascades.2.2.2.1
      (FormField.mk "VerticalLayout" .group "New Name" "old-key" [] true none)
      (.mk "VerticalLayout" .group "Old Name" "old-key" [] true none) rfl⟩

/-! ### Claim C2: processed-set idempotence and top-level seeding -/

theorem nodup_append_singleton {l : List String} {a : String}
    (h : l.Nodup) (ha : a ∉ l) : (l ++ [a]).Nodup :=
  (List.perm_append_singleton a l).nodup_iff.mpr (List.nodup_cons.mpr ⟨ha, h⟩)

theorem subKeys_mk :
    subKeys (.mk t ft lab k els p lay) = k :: subKeysE els := by
  rw [subKeys, subforms, List.map, subKeysE]
  rfl

theorem subKeysE_nil : subKeysE [] = [] := by
  rw [subKeysE, subformsOfElems]
  rfl

theorem subKeysE_cons (e : FormElement) (es : List FormElement) :
    subKeysE (e :: es) = subKeysElem e ++ subKeysE es := by
  rw [subKeysE, subformsOfElems, List.map_append, subKeysElem, subKeysE]

theorem subKeysElem_obj {et : ElementType} (het : et = .object) (hh : FormField) :
    subKeysElem (.mk et lab k req (some hh)) = subKeys hh := by
  rw [subKeysElem, subformsOfElem, if_pos het, subKeys]

theorem subKeysElem_not_obj {et : ElementType} (het : ¬et = .object) (hh : FormField) :
    subKeysElem (.mk et lab k req (some hh)) = [] := by
  rw [subKeysElem, subformsOfElem, if_neg het]
  rfl

theorem subKeysElem_none : subKeysElem (.mk et lab k req none) = [] := by
  rw [subKeysElem, subformsOfElem]
  rfl

mutual
theorem nodup_processForm : ∀ (f : FormField) (pp : Option String) (st : BuildState),
    st.processed.Nodup → (processForm f pp st).processed.Nodup
  | .mk t ft lab k els p lay, pp, st, h => by
    rw [processForm.eq_def]
    dsimp only
    by_cases hc : st.processed.contains k = true
    · rw [if_pos hc]; exact h
    · rw [if_neg hc]
      by_cases hg : p = true ∧ pp = none
      · rw [if_pos hg]; exact h
      · rw [if_neg hg]
        have hk : k ∉ st.processed := fun hm => hc (List.elem_iff.mpr hm)
        cases pp with
        | some pps =>
          exact nodup_processChildren els _ _ (nodup_append_singleton h hk)
        | none =>
          exact nodup_processChildren els _ _ (nodup_append_singleton h hk)

theorem nodup_processChildren : ∀ (es : List FormElement) (pp : String) (st : BuildState),
    st.processed.Nodup → (processChildren es pp st).processed.Nodup
  | [], _, _, h => by rw [processChildren]; exact h
  | e :: es, pp, st, h => by
    rw [processChildren]
    exact nodup_processChildren es pp _ (nodup_childStep e pp st h)

theorem nodup_childStep : ∀ (e : FormElement) (pp : String) (st : BuildState),
    st.processed.Nodup → (childStep e pp st).processed.Nodup
  | .mk et lab k req (some hh), pp, st, h => by
    rw [childStep]
    by_cases het : et = ElementType.object
    · rw [if_pos het]; exact nodup_processForm hh _ _ h
    · rw [if_neg het]; exact h
  | .mk et lab k req none, pp, st, h => by rw [childStep]; exact h
end

mutual
theorem keys_processForm : ∀ (f : FormField) (pp : Option String) (st : BuildState),
    (f.parent = false ∨ pp ≠ none) → (subKeys f).Nodup →
    (∀ k' ∈ subKeys f, k' ∉ st.processed) →
    (processForm f pp st).processed = st.processed ++ subKeys f
  | .mk t ft lab k els p lay, pp, st, hpar, hnd, hfresh => by
    rw [subKeys_mk] at hnd hfresh ⊢
    rw [processForm.eq_def]
    dsimp only
    have hk : k ∉ st.processed := hfresh k (List.mem_cons_self _ _)
    rw [if_neg (fun hc => hk (List.elem_iff.mp hc))]
    have hg : ¬(p = true ∧ pp = none) := by
      rintro ⟨h1, h2⟩
      rcases hpar with hpar | hpar
      · rw [FormField.parent_mk] at hpar; rw [hpar] at h1; cases h1
      · exact hpar h2
    rw [if_neg hg]
    rw [List.nodup_cons] at hnd
    have hfresh' : ∀ k' ∈ subKeysE els, k' ∉ st.processed ++ [k] := by
      intro k' hk' hmem
      rcases List.mem_append.mp hmem with hmem | hmem
      · exact hfresh k' (List.mem_cons_of_mem _ hk') hmem
      · exact hnd.1 (List.mem_singleton.mp hmem ▸ hk')
    cases pp with
    | some pps =>
      rw [keys_processChildren els _ _ hnd.2 hfresh']
      rw [List.append_assoc]
      rfl
    | none =>
      rw [keys_processChildren els _ _ hnd.2 hfresh']
      rw [List.append_assoc]
      rfl

theorem keys_processChildren : ∀ (es : List FormElement) (pp : String) (st : BuildState),
    (subKeysE es).Nodup → (∀ k' ∈ subKeysE es, k' ∉ st.processed) →
    (processChildren es pp st).processed = st.processed ++ subKeysE es
  | [], _, st, _, _ => by rw [processChildren, subKeysE_nil, List.append_nil]
  | e :: es, pp, st, hnd, hfresh => by
    rw [subKeysE_cons] at hnd hfresh ⊢
    rw [processChildren]
    rcases List.nodup_append.mp hnd with ⟨hnd1, hnd2, hdisj⟩
    have h1 : (childStep e pp st).processed = st.processed ++ subKeysElem e :=
      keys_childStep e pp st hnd1
        (fun k' hk' => hfresh k' (List.mem_append.mpr (Or.inl hk')))
    have hfresh2 : ∀ k' ∈ subKeysE es, k' ∉ (childStep e pp st).processed := by
      intro k' hk' hmem
      rw [h1] at hmem
      rcases List.mem_append.mp hmem with hmem | hmem
      · exact hfresh k' (List.mem_append.mpr (Or.inr hk')) hmem
      · exact hdisj hmem hk'
    rw [keys_processChildren es pp _ hnd2 hfresh2, h1, List.append_assoc]

theorem keys_childStep : ∀ (e : FormElement) (pp : String) (st : BuildState),
    (subKeysElem e).Nodup → (∀ k' ∈ subKeysElem e, k' ∉ st.processed) →
    (childStep e pp st).processed = st.processed ++ subKeysElem e
  | .mk et lab k req (some hh), pp, st, hnd, hfresh => by
    rw [childStep]
    by_cases het : et = ElementType.object
    · rw [if_pos het]
      rw [subKeysElem_obj het] at hnd hfresh ⊢
      exact keys_processForm hh (some pp) st (Or.inr (by simp)) hnd hfresh
    · rw [if_neg het, subKeysElem_not_obj het, List.append_nil]
  | .mk et lab k req none, pp, st, _, _ => by
    rw [childStep, subKeysElem_none, List.append_nil]
end

theorem nodup_fold_processForm :
    ∀ (seeds : List FormField) (st : BuildState), st.processed.Nodup →
      (seeds.foldl (fun st f => processForm f none st) st).processed.Nodup := by
  intro seeds
  induction seeds with
  | nil => intro st h; exact h
  | cons f fs ih =>
    intro st h
    rw [List.foldl]
    exact ih _ (nodup_processForm f none st h)

theorem keys_fold_processForm :
    ∀ (seeds : List FormField) (st : BuildState),
      (∀ f ∈ seeds, f.parent = false) →
      (seeds.flatMap subKeys).Nodup →
      (∀ k' ∈ seeds.flatMap subKeys, k' ∉ st.processed) →
      (seeds.foldl (fun st f => processForm f none st) st).processed
        = st.processed ++ seeds.flatMap subKeys := by
  intro seeds
  induction seeds with
  | nil => intro st _ _ _; rw [List.foldl, List.flatMap_nil, List.append_nil]
  | cons f fs ih =>
    intro st hpar hnd hfresh
    rw [List.flatMap_cons] at hnd hfresh ⊢
    rw [List.foldl]
    rcases List.nodup_append.mp hnd with ⟨hnd1, hnd2, hdisj⟩
    have h1 : (processForm f none st).processed = st.processed ++ subKeys f :=
      keys_processForm f none st (Or.inl (hpar f (List.mem_cons_self _ _))) hnd1
        (fun k' hk' => hfresh k' (List.mem_append.mpr (Or.inl hk')))
    have hfresh2 : ∀ k' ∈ fs.flatMap subKeys, k' ∉ (processForm f none st).processed := by
      intro k' hk' hmem
      rw [h1] at hmem
      rcases List.mem_append.mp hmem with hmem | hmem
      · exact hfresh k' (List.mem_append.mpr (Or.inr hk')) hmem
      · exact hdisj hmem hk'
    rw [ih _ (fun g hg => hpar g (List.mem_cons_of_mem _ hg)) hnd2 hfresh2, h1,
      List.append_assoc]

theorem map_fst_replaceProp (props : List (String × SchemaObject)) (k : String)
    (v : SchemaObject) : (replaceProp props k v).map Prod.fst = props.map Prod.fst := by
  induction props with
  | nil => rfl
  | cons a rest ih =>
    cases a with
    | mk k' v' =>
      rw [replaceProp]
      by_cases hk : k' = k
      · rw [if_pos hk, List.map, List.map]
        simp [hk]
      · rw [if_neg hk, List.map, List.map, ih]

theorem mem_map_fst_insertProp {props : List (String × SchemaObject)} {k k' : String}
    {v : SchemaObject} (h : k' ∈ (insertProp props k v).map Prod.fst) :
    k' ∈ props.map Prod.fst ∨ k' = k := by
  induction props with
  | nil =>
    rw [insertProp] at h
    simp at h
    exact Or.inr h
  | cons a rest ih =>
    cases a with
    | mk ka va =>
      rw [insertProp] at h
      by_cases hk : ka = k
      · rw [if_pos hk] at h
        rcases List.mem_cons.mp h with h | h
        · exact Or.inr h
        · exact Or.inl (List.mem_cons_of_mem _ h)
      · rw [if_neg hk] at h
        rcases List.mem_cons.mp h with h | h
        · exact Or.inl (h ▸ List.mem_cons_self _ _)
        · rcases ih h with h | h
          · exact Or.inl (List.mem_cons_of_mem _ h)
          · exact Or.inr h

theorem map_fst_navInsert :
    ∀ (parts : List String) (props : List (String × SchemaObject)) (k : String)
      (v : SchemaObject),
      (navInsert props parts k v).map Prod.fst = props.map Prod.fst
  | [], _, _, _ => by rw [navInsert]
  | [part], props, k, v => by
    rw [navInsert]
    cases h : lookupProp props part with
    | none => rfl
    | some so => exact map_fst_replaceProp props part _
  | part :: part2 :: rest, props, k, v => by
    rw [navInsert]
    cases h : lookupProp props part with
    | none => exact map_fst_navInsert (part2 :: rest) props k v
    | some so =>
      dsimp only
      by_cases ha : isArrayFragment so = true
      · rw [if_pos ha]; exact map_fst_replaceProp props part _
      · rw [if_neg ha]
        cases hp : so.properties with
        | none => exact map_fst_navInsert (part2 :: rest) props k v
        | some ps => exact map_fst_replaceProp props part _

mutual
theorem propsKeys_processForm_some : ∀ (f : FormField) (pps : String) (st : BuildState),
    (processForm f (some pps) st).props.map Prod.fst = st.props.map Prod.fst
  | .mk t ft lab k els p lay, pps, st => by
    rw [processForm.eq_def]
    dsimp only
    by_cases hc : st.processed.contains k = true
    · rw [if_pos hc]
    · rw [if_neg hc]
      by_cases hg : p = true ∧ (some pps : Option String) = none
      · rw [if_pos hg]
      · rw [if_neg hg]
        rw [propsKeys_processChildren els _ _]
        exact map_fst_navInsert _ _ _ _

theorem propsKeys_processChildren : ∀ (es : List FormElement) (pp : String) (st : BuildState),
    (processChildren es pp st).props.map Prod.fst = st.props.map Prod.fst
  | [], _, _ => by rw [processChildren]
  | e :: es, pp, st => by
    rw [processChildren, propsKeys_processChildren es pp _, propsKeys_childStep e pp st]

theorem propsKeys_childStep : ∀ (e : FormElement) (pp : String) (st : BuildState),
    (childStep e pp st).props.map Prod.fst = st.props.map Prod.fst
  | .mk et lab k req (some hh), pp, st => by
    rw [childStep]
    by_cases het : et = ElementType.object
    · rw [if_pos het]; exact propsKeys_processForm_some hh pp st
    · rw [if_neg het]
  | .mk et lab k req none, pp, st => by rw [childStep]
end

theorem propsKeys_processForm_none (f : FormField) (st : BuildState) (k' : String)
    (h : k' ∈ (processForm f none st).props.map Prod.fst) :
    k' ∈ st.props.map Prod.fst ∨ k' = f.key := by
  cases f with
  | mk t ft lab k els p lay =>
    rw [processForm.eq_def] at h
    dsimp only at h
    by_cases hc : st.processed.contains k = true
    · rw [if_pos hc] at h; exact Or.inl h
    · rw [if_neg hc] at h
      by_cases hg : p = true ∧ (none : Option String) = none
      · rw [if_pos hg] at h; exact Or.inl h
      · rw [if_neg hg] at h
        rw [propsKeys_processChildren els _ _] at h
        exact mem_map_fst_insertProp h

theorem propsKeys_fold :
    ∀ (seeds : List FormField) (st : BuildState) (k' : String),
      k' ∈ ((seeds.foldl (fun st f => processForm f none st) st).props.map Prod.fst) →
      k' ∈ st.props.map Prod.fst ∨ ∃ f ∈ seeds, f.key = k' := by
  intro seeds
  induction seeds with
  | nil => intro st k' h; exact Or.inl h
  | cons f fs ih =>
    intro st k' h
    rw [List.foldl] at h
    rcases ih _ k' h with h | ⟨g, hg, rfl⟩
    · rcases propsKeys_processForm_none f st k' h with h | h
      · exact Or.inl h
      · exact Or.inr ⟨f, List.mem_cons_self _ _, h.symm⟩
    · exact Or.inr ⟨g, List.mem_cons_of_mem _ hg, rfl⟩

/-- Claim C2: (1) `generateJsonSchema` processes each key at most once
— the processed set, listed in insertion order, has no duplicates,
regardless of how many paths reach a form; (2) when the keys of all forms
reachable from the parentless roots are pairwise distinct, every reachable
form is processed (its key is in the processed set); (3) a FormNode whose
`parent` is set never appears as a top-level property of the schema: every
top-level property key is the key of a parentless root form. -/
theorem C2_processed_set :
    (∀ forms : List FormField, (generateJsonSchema forms).processed.Nodup) ∧
    (∀ forms : List FormField, (rootSubKeys forms).Nodup →
      ∀ f ∈ forms, f.parent = false →
        ∀ g ∈ subforms f, g.key ∈ (generateJsonSchema forms).processed) ∧
    (∀ forms : List FormField, ∀ k ∈ (generateJsonSchema forms).props.map Prod.fst,
      ∃ f ∈ forms, f.parent = false ∧ f.key = k) := by
  refine ⟨fun forms => ?_, fun forms hnd f hf hpar g hg => ?_, fun forms k hk => ?_⟩
  · exact nodup_fold_processForm _ _ List.nodup_nil
  · have hchar := keys_fold_processForm (forms.filter (fun f => f.parent = false))
      ⟨[], [], []⟩
      (fun x hx => by simpa using (List.mem_filter.mp hx).2)
      hnd (fun k' _ h => by cases h)
    rw [generateJsonSchema, hchar, List.nil_append]
    have hfmem : f ∈ forms.filter (fun f => f.parent = false) :=
      List.mem_filter.mpr ⟨hf, by simpa using hpar⟩
    exact List.mem_flatMap.mpr ⟨f, hfmem, List.mem_map.mpr ⟨g, hg, rfl⟩⟩
  · rw [generateJsonSchema] at hk
    rcases propsKeys_fold _ _ k hk with h | ⟨f, hf, hkey⟩
    · cases h
    · rcases List.mem_filter.mp hf with ⟨hmem, hpar⟩
      exact ⟨f, hmem, by simpa using hpar, hkey⟩

/-- Witness for C2 at the concrete tree `[cR]` (the nested form `cG` is
reachable and its key ends up in the processed set exactly once). -/
theorem C2_processed_set_witness :
    cG.key ∈ (generateJsonSchema [cR]).processed ∧
    (generateJsonSchema [cR]).processed.Nodup :=
  ⟨C2_processed_set.2.1 [cR]
      (by
        rw [show rootSubKeys [cR] = subKeys cR ++ [] from rfl]
        rw [List.append_nil]
        rw [show subKeys cR = "r" :: subKeysE cR.elements from subKeys_mk]
        rw [show subKeysE cR.elements
          = subKeysElem (.mk .object "G Form" "g" false (some cG)) ++ [] from rfl]
        rw [List.append_nil, subKeysElem_obj rfl]
        rw [show subKeys cG = "g" :: subKeysE cG.elements from subKeys_mk]
        rw [show subKeysE cG.elements
          = subKeysElem (.mk .string "S String" "s" false none) ++ [] from rfl]
        rw [List.append_nil, subKeysElem_none]
        decide)
      cR (List.mem_singleton.mpr rfl) rfl cG
      (by
        rw [show subforms cR = cR :: subformsOfElems cR.elements from rfl]
        refine List.mem_cons_of_mem _ ?_
        rw [show subformsOfElems cR.elements
          = subformsOfElem (.mk .object "G Form" "g" false (some cG)) ++ [] from rfl]
        rw [List.append_nil]
        rw [show subformsOfElem (.mk .object "G Form" "g" false (some cG))
          = subforms cG from by rw [subformsOfElem, if_pos rfl]]
        rw [show subforms cG = cG :: subformsOfElems cG.elements from rfl]
        exact List.mem_cons_self _ _),
    C2_processed_set.1 [cR]⟩

/-! ### Claim C7: the counterexample tree (nested horizontal array)

A root `array` form `rF` embeds a `group` form `hF`, which embeds an
`array` form `aF` whose orientation is horizontal (a tree constructible
through the UI: `addForm` below a path, then `updateForm` setting the
layout).  The kind/orientation lookup for the nested array property `"a"`
misses the root collection, so the emitted detail layout is
`VerticalLayout` even though the owning FormNode `aF` is horizontal. -/

def aF : FormField :=
  .mk "VerticalLayout" .array "A Form" "a" [.mk .string "S String" "s" false none] true
    (some .horizontal)

def hF : FormField :=
  .mk "VerticalLayout" .group "H Form" "h" [.mk .object "A Form" "a" false (some aF)] true none

def rF : FormField :=
  .mk "VerticalLayout" .array "R Form" "r" [.mk .object "H Form" "h" false (some hF)] false
    (some .vertical)

def sLit : SchemaObject := .mk "string" (some "S String") none none none none

/-- The structural fragment of the nested horizontal array form `aF`. -/
def aLit : SchemaObject :=
  .mk "array" (some "A Form") none
    (some (.mk "object" none (some [("s", sLit)]) none none none)) none none

def hLit : SchemaObject :=
  .mk "object" (some "H Form") (some [("a", aLit)]) none none none

def rLit : SchemaObject :=
  .mk "array" (some "R Form") none
    (some (.mk "object" none (some [("h", hLit)]) none none none)) none none

theorem aF_formSchema : generateFormSchema (.mk "VerticalLayout" .array "A Form" "a"
    [.mk .string "S String" "s" false none] true (some .horizontal)) = aLit := by
  simp [generateFormSchema, processElements, elementSchema, insertProp, elementTypeString,
    requiredOf, List.filter, aLit, sLit]

theorem hF_formSchema : generateFormSchema (.mk "VerticalLayout" .group "H Form" "h"
    [.mk .object "A Form" "a" false (some aF)] true none) = hLit := by
  rw [generateFormSchema.eq_def]
  simp [processElements, elementSchema, insertProp, elementTypeString,
    requiredOf, List.filter, aF, aF_formSchema, hLit]

theorem rF_formSchema : generateFormSchema (.mk "VerticalLayout" .array "R Form" "r"
    [.mk .object "H Form" "h" false (some hF)] false (some .vertical)) = rLit := by
  rw [generateFormSchema.eq_def]
  simp [processElements, elementSchema, insertProp, elementTypeString,
    requiredOf, List.filter, hF, hF_formSchema, rLit]

theorem rF_processForm_step : processForm rF none ⟨[], [], []⟩
    = processChildren rF.elements "r" ⟨[("r", rLit)], [], ["r"]⟩ := by
  rw [processForm.eq_def]
  simp [rF, rF_formSchema, insertProp, requiredOf, List.filter]

theorem aF_processForm_step : processForm aF (some "r.h") ⟨[("r", rLit)], [], ["r", "h"]⟩
    = ⟨[("r", rLit)], [], ["r", "h", "a"]⟩ := by
  rw [processForm.eq_def]
  simp only [aF]
  norm_num
  rw [show jsSplit "r.h" '.' = ["r", "h"] from rfl]
  simp [navInsert, lookupProp, replaceProp, insertIntoFragment, isArrayFragment,
    setItemsProps, getItemsProps, setProps, insertProp, aF_formSchema,
    rLit, hLit, aLit, sLit, processChildren, childStep, SchemaObject.type,
    SchemaObject.properties, SchemaObject.items]

theorem hnav : navInsert [("r", rLit)] ["r"] "h" hLit = [("r", rLit)] := by
  simp [navInsert, lookupProp, replaceProp, insertIntoFragment, isArrayFragment,
    setItemsProps, getItemsProps, setProps, insertProp, rLit, hLit, aLit, sLit]

theorem hF_processForm_step : processForm hF (some "r") ⟨[("r", rLit)], [], ["r"]⟩
    = ⟨[("r", rLit)], [], ["r", "h", "a"]⟩ := by
  rw [processForm.eq_def]
  simp only [hF]
  norm_num
  rw [show jsSplit "r" '.' = ["r"] from rfl]
  rw [hF_formSchema, hnav]
  rw [show ("r" ++ "." ++ "h" : String) = "r.h" from rfl]
  rw [processChildren, childStep, if_pos rfl]
  rw [aF_processForm_step]
  rw [processChildren]
  simp

theorem rF_buildProps : (generateJsonSchema [rF]).props = [("r", rLit)] := by
  have h0 : generateJsonSchema [rF] = processForm rF none ⟨[], [], []⟩ := by
    simp [generateJsonSchema, rF]
  rw [h0, rF_processForm_step]
  rw [show rF.elements = [FormElement.mk .object "H Form" "h" false (some hF)] from rfl]
  rw [processChildren, childStep, if_pos rfl, hF_processForm_step, processChildren]

theorem rF_uiRootEntry : uiRootEntry [rF] ("r", rLit)
    = .node "Control" (some (cleanScopePath "#/properties/r")) none
        (some ("VerticalLayout", paProps [rF] (some rF) [("h", hLit)])) none := by
  simp only [uiRootEntry.eq_def, rLit]
  norm_num
  rw [show (if rF.key = "r" then some rF else none) = some rF from rfl]
  rw [processArrays]
  rfl

theorem rF_paProps_h : paProps [rF] (some rF) [("h", hLit)]
    = [.node "Control" (some (cleanScopePath "#/properties/h")) none
        (some ("VerticalLayout", paNested [rF] none [("a", aLit)])) none] := by
  rw [paProps, paProps]
  rw [paEntry.eq_def]
  simp only [hLit]
  norm_num
  rw [show (if rF.key = "h" then some rF else none) = (none : Option FormField) from rfl]
  rfl

theorem rF_paNested_a : paNested [rF] none [("a", aLit)]
    = [.node "Control" (some (cleanScopePath "#/properties/a")) none
        (some ("VerticalLayout", paProps [rF] none [("s", sLit)])) none] := by
  rw [paNested, paNested]
  rw [paNestedEntry.eq_def]
  simp only [aLit]
  norm_num
  rw [processArrays]
  rfl

theorem rF_uiElements : (generateUiSchema [rF] [("r", rLit)]).elementsOf
    = [.node "Control" (some (cleanScopePath "#/properties/r")) none
        (some ("VerticalLayout", paProps [rF] (some rF) [("h", hLit)])) none] := by
  simp [generateUiSchema, UiElem.elementsOf, rF_uiRootEntry, UiElem.isNull]

/-- Counterexample to claim C7 as stated: in the tree `[rF]` the
structural schema contains the array-typed property `"a"` whose owning
FormNode `aF` has horizontal orientation, yet the presentation builder
emits for it a detail-control whose inner layout is `VerticalLayout`: the
orientation lookup threads only the result of the root-collection
`forms.find`, which misses for forms nested below the roots. -/
theorem C7_counterexample :
    aF.formType = FormType.array ∧
    aF.layout = some Layout.horizontal ∧
    (generateJsonSchema [rF]).props = [("r", rLit)] ∧
    aLit.type = "array" ∧
    ((((generateUiSchema [rF] [("r", rLit)]).elementsOf.headD .nullE).detailElems.headD .nullE).detailElems.headD .nullE).detailType
      = "VerticalLayout" ∧
    "VerticalLayout" ≠ "HorizontalLayout" := by
  have hstep :
      ((((generateUiSchema [rF] [("r", rLit)]).elementsOf.headD .nullE).detailElems.headD .nullE).detailElems.headD .nullE).detailType
        = "VerticalLayout" := by
    rw [rF_uiElements]
    show (((paProps [rF] (some rF) [("h", hLit)]).headD .nullE).detailElems.headD .nullE).detailType
      = "VerticalLayout"
    rw [rF_paProps_h]
    show ((paNested [rF] none [("a", aLit)]).headD .nullE).detailType = "VerticalLayout"
    rw [rF_paNested_a]
    rfl
  exact ⟨rfl, rfl, rF_buildProps, rfl, hstep, by decide⟩

end FormBuilder
